import Mathlib

set_option maxHeartbeats 1000000
set_option linter.unusedVariables false
set_option linter.unnecessarySeqFocus false

/-!
Verification of the ETCBC lesson-designer core (src/app/main.py).

The content pipeline (sample selection, festival matching, congregation
context, narrative composition, slide structuring, runtime estimation) is
embedded below as executable Lean definitions, mirroring the Python source.
Machine arithmetic is exact: Python `int` is `Int`, Python floor division
and `%` on positive divisors are `Int.ediv` (`/`) and `Int.emod` (`%`),
Python `math.trunc` is `Int.tdiv`.  Calendar-date values are represented by
integer day numbers (Julian day number shifted by -0.5, so that each civil
day is one integer), and `datetime` subtraction `.days` on pure dates is
the difference of day numbers.
-/

/-! ## String containment (Python `needle in hay`) -/

/-- Byte-for-byte comparison of a candidate leading segment: `leadsWith n l`
is true iff `n` is an initial segment of `l`. -/
def leadsWith : List Char → List Char → Bool
  | [], _ => true
  | _ :: _, [] => false
  | a :: as, b :: bs => a == b && leadsWith as bs

/-- `occursIn n l` is true iff `n` occurs contiguously inside `l`
(Python substring containment on the character list). -/
def occursIn (n : List Char) : List Char → Bool
  | [] => leadsWith n []
  | c :: rest => leadsWith n (c :: rest) || occursIn n rest

/-- Python `needle in hay` on strings. -/
def strOccursIn (needle hay : String) : Bool := occursIn needle.data hay.data

theorem leadsWith_append (n b : List Char) : leadsWith n (n ++ b) = true := by
  induction n with
  | nil => rfl
  | cons a as ih => simp [leadsWith, ih]

theorem occursIn_leading (n b : List Char) : occursIn n (n ++ b) = true := by
  cases n with
  | nil =>
    cases b with
    | nil => rfl
    | cons c cs => simp [occursIn, leadsWith]
  | cons c cs =>
    simp only [occursIn, List.cons_append, Bool.or_eq_true]
    exact Or.inl (leadsWith_append (c :: cs) b)

theorem occursIn_append_self (a n b : List Char) : occursIn n (a ++ (n ++ b)) = true := by
  induction a with
  | nil => simpa using occursIn_leading n b
  | cons c cs ih => simp [occursIn, ih]

/-! ## Stable sort by an integer key (Python `list.sort(key=...)` / `sorted(..., key=...)`).

Python uses a stable ascending sort; stable ascending order is unique, so a
stable insertion sort is extensionally the same function. -/

/-- Insert `x` into `l` in front of the first element whose key is not
smaller; among equal keys the incoming (originally earlier) element stays
first, which is exactly stability. -/
def insertByKey {α : Type} (key : α → Int) (x : α) : List α → List α
  | [] => [x]
  | y :: l => if key x ≤ key y then x :: y :: l else y :: insertByKey key x l

/-- Stable ascending insertion sort by `key`. -/
def sortByKey {α : Type} (key : α → Int) : List α → List α
  | [] => []
  | x :: l => insertByKey key x (sortByKey key l)

theorem mem_insertByKey {α : Type} (key : α → Int) (x : α) (l : List α) (a : α) :
    a ∈ insertByKey key x l ↔ a = x ∨ a ∈ l := by
  induction l with
  | nil => simp [insertByKey]
  | cons y l ih =>
    by_cases h : key x ≤ key y <;> simp [insertByKey, h, ih] <;> tauto

theorem mem_sortByKey {α : Type} (key : α → Int) (l : List α) (a : α) :
    a ∈ sortByKey key l ↔ a ∈ l := by
  induction l with
  | nil => simp [sortByKey]
  | cons x l ih => simp [sortByKey, mem_insertByKey, ih]

theorem insertByKey_pairwise {α : Type} (key : α → Int) (P : α → α → Prop)
    (x : α) (l : List α)
    (hl : l.Pairwise (fun a b => key a < key b ∨ (key a = key b ∧ P a b)))
    (hx : ∀ y ∈ l, key x = key y → P x y) :
    (insertByKey key x l).Pairwise
      (fun a b => key a < key b ∨ (key a = key b ∧ P a b)) := by
  induction l with
  | nil => simp [insertByKey]
  | cons y l ih =>
    rcases List.pairwise_cons.mp hl with ⟨hyl, hl'⟩
    by_cases h : key x ≤ key y
    · simp only [insertByKey, if_pos h]
      refine List.pairwise_cons.mpr ⟨?_, hl⟩
      intro z hz
      rcases List.mem_cons.mp hz with hz | hz
      · subst hz
        rcases lt_or_eq_of_le h with h' | h'
        · exact Or.inl h'
        · exact Or.inr ⟨h', hx z (List.mem_cons_self z l) h'⟩
      · rcases hyl z hz with h' | ⟨h1, _⟩
        · rcases lt_or_eq_of_le h with h'' | h''
          · exact Or.inl (lt_trans h'' h')
          · exact Or.inl (h'' ▸ h')
        · rcases lt_or_eq_of_le h with h'' | h''
          · exact Or.inl (h1 ▸ h'')
          · exact Or.inr ⟨h''.trans h1, hx z (List.mem_cons_of_mem y hz) (h''.trans h1)⟩
    · simp only [insertByKey, if_neg h]
      refine List.pairwise_cons.mpr
        ⟨?_, ih hl' (fun z hz => hx z (List.mem_cons_of_mem y hz))⟩
      intro z hz
      rcases (mem_insertByKey key x l z).mp hz with hz | hz
      · subst hz
        exact Or.inl (lt_of_not_le h)
      · exact hyl z hz

/-- The sorted list is ascending in the key, and any two elements with equal
keys keep a relation `P` that held pairwise (in order) in the input: this is
stability, packaged as the property the claims need. -/
theorem sortByKey_pairwise {α : Type} (key : α → Int) (P : α → α → Prop)
    (l : List α) (h : l.Pairwise (fun a b => key a = key b → P a b)) :
    (sortByKey key l).Pairwise
      (fun a b => key a < key b ∨ (key a = key b ∧ P a b)) := by
  induction l with
  | nil => simp [sortByKey]
  | cons x l ih =>
    rcases List.pairwise_cons.mp h with ⟨hxl, hl⟩
    exact insertByKey_pairwise key P x (sortByKey key l) (ih hl)
      (fun y hy => hxl y ((mem_sortByKey key l y).mp hy))

theorem pairwise_of_forall {α : Type} (l : List α) (R : α → α → Prop)
    (h : ∀ a b, R a b) : l.Pairwise R := by
  induction l with
  | nil => exact List.Pairwise.nil
  | cons x l ih => exact List.Pairwise.cons (fun y _ => h x y) ih

theorem sortByKey_sorted {α : Type} (key : α → Int) (l : List α) :
    (sortByKey key l).Pairwise (fun a b => key a ≤ key b) := by
  have h := sortByKey_pairwise key (fun _ _ => True) l
    (pairwise_of_forall l _ (fun _ _ _ => trivial))
  exact h.imp (by intro a b hab; rcases hab with h1 | ⟨h1, _⟩ <;> omega)

/-! ## Data model (src/app/main.py)

The two static catalogs (`ETCBC_SAMPLES`, `CONG_CALENDAR`) are loaded at
process start from JSON data files that are not part of the source tree;
following the spec's design note they are passed to the core functions as
explicit immutable tables.  A stored significant date carries the outcome
of the external `dateutil.parser.isoparse` call as an `Option` day number:
`none` models an unparseable stored date (`ValueError`/`TypeError`). -/

structure Morphology where
  part_of_speech : String
  root : String
deriving DecidableEq, Repr, Inhabited

structure TextSample where
  reference : String
  book : String
  hebrew_focus : String
  translation : String
  morphology : Morphology
  exegetical_notes : List String
  lexical_insights : List String
  themes : List String
deriving DecidableEq, Repr, Inhabited

structure SignificantDate where
  date : Option Int
  description : String
  emphasis : Option String
deriving DecidableEq, Repr, Inhabited

structure CongregationProfile where
  name : Option String
  location : Option String
  values : List String
  significant_dates : List SignificantDate
deriving DecidableEq, Repr, Inhabited

/-- The record Python's `CONG_CALENDAR.get("default", {})` produces when even
the `"default"` key is absent: every field reads as absent/empty. -/
def emptyProfile : CongregationProfile := ⟨none, none, [], []⟩

structure NearbyEvent where
  description : String
  emphasis : Option String
  days_apart : Int
deriving DecidableEq, Repr, Inhabited

structure CongContext where
  name : Option String
  location : Option String
  values : List String
  nearby_events : List NearbyEvent
deriving DecidableEq, Repr, Inhabited

structure LessonSection where
  title : String
  content : String
  exegetical : List String
  application : String
deriving DecidableEq, Repr, Inhabited

structure Slide where
  title : String
  bullets : List String
  notes : String
deriving DecidableEq, Repr, Inhabited

/-! ## Sample Selector (select_sample, main.py lines 90-100) -/

/-- The passage test applied to each catalog entry inside the first loop:
Python `normalized_passage and normalized_passage in sample["reference"].lower()`
(an empty query string is falsy, so it never matches). -/
def passageHit (normalized_passage : String) (sample : TextSample) : Bool :=
  !normalized_passage.isEmpty && strOccursIn normalized_passage sample.reference.toLower

/-- The theme test of the second loop:
Python `any(normalized_topic in theme.lower() for theme in sample["themes"])`. -/
def themeHit (normalized_topic : String) (sample : TextSample) : Bool :=
  sample.themes.any (fun theme => strOccursIn normalized_topic theme.toLower)

/-- Embeds `select_sample`.  `none` models the `IndexError` that
`ETCBC_SAMPLES[0]` would raise on an empty catalog (the load-time
precondition rules that out). -/
def select_sample (catalog : List TextSample) (topic passage : Option String) :
    Option TextSample :=
  let normalized_topic := (topic.getD "").toLower
  let normalized_passage := (passage.getD "").toLower
  match catalog.find? (passageHit normalized_passage) with
  | some sample => some sample
  | none =>
    if !normalized_topic.isEmpty then
      match catalog.find? (themeHit normalized_topic) with
      | some sample => some sample
      | none => catalog.head?
    else catalog.head?

/-! ## Congregation Context Resolver (congregation_context, main.py lines 103-119) -/

def lookupProfile (cal : List (String × CongregationProfile)) (k : String) :
    Option CongregationProfile :=
  (cal.find? (fun p => p.1 == k)).map Prod.snd

/-- The per-record body of `congregation_context`: walk the significant
dates, skip entries whose stored date failed to parse, keep the ones within
21 days of the target, sort ascending by `days_apart`. -/
def contextOfRecord (record : CongregationProfile) (targetDay : Int) : CongContext :=
  let events := record.significant_dates.filterMap (fun item =>
    match item.date with
    | none => none
    | some event_date =>
      let delta := |targetDay - event_date|
      if delta ≤ 21 then some ⟨item.description, item.emphasis, delta⟩ else none)
  ⟨record.name, record.location, record.values, sortByKey (·.days_apart) events⟩

/-- Embeds `congregation_context`.  Python resolves the record as
`CONG_CALENDAR.get(congregation_id) or CONG_CALENDAR.get("default", {})`;
a profile present in the catalog is a non-empty dict, hence truthy. -/
def congregation_context (cal : List (String × CongregationProfile))
    (congregation_id : String) (targetDay : Int) : CongContext :=
  let record := match lookupProfile cal congregation_id with
    | some r => r
    | none => (lookupProfile cal "default").getD emptyProfile
  contextOfRecord record targetDay

/-! ## Narrative Composer: conclusion and sections (main.py lines 168-217) -/

/-- Embeds `build_conclusion`.  The Python body never reads `introduction`;
the parameter is kept to mirror the signature. -/
def build_conclusion (sample : TextSample) (introduction : String) : String :=
  "The same cadence that opened our time—" ++ sample.hebrew_focus ++
    "—now sends us. Let the insights we traced move from study to practice: " ++
    "embrace God\x27s invitation, embody covenantal blessing, and walk toward Christlike transformation together."

/-- The fixed three-section body of `construct_sections` (`base_points`). -/
def basePoints (sample : TextSample) : List LessonSection :=
  [ { title := "Textual Horizon",
      content := sample.reference ++ " anchors the lesson. Key Hebrew focus: " ++
        sample.hebrew_focus ++ " (" ++ sample.translation ++ "). " ++
        "Morphology: " ++ sample.morphology.part_of_speech ++ " rooted in " ++
        sample.morphology.root ++ ".",
      exegetical := sample.exegetical_notes,
      application := "Trace the flow of the passage, inviting listeners to inhabit the narrative movement." },
    { title := "Linguistic Insights",
      content := "Lexical themes emerge, amplifying covenantal movement.",
      exegetical := sample.lexical_insights,
      application := "Highlight how the Hebrew terms reshape imagination and discipleship practices." },
    { title := "Formation Pathways",
      content := "Move from exegesis to embodied action.",
      exegetical :=
        [ "Map the passage\x27s structure to contemporary rhythms (gathering, scattering, serving).",
          "Invite testimonies or reflective prayer that echo the text\x27s movement." ],
      application := "Provide concrete steps for the congregation to live the text this week." } ]

/-- Embeds `construct_sections`: below 25 estimated minutes the three fixed
sections collapse to `base_points[:1]` plus one condensed section whose
exegetical list is `sample["lexical_insights"][:1]`. -/
def construct_sections (sample : TextSample) (estimated_minutes : Int) :
    List LessonSection :=
  if estimated_minutes < 25 then
    (basePoints sample).take 1 ++
      [ { title := "Concise Insight",
          content := "In limited time, emphasize the pivot: " ++ sample.hebrew_focus ++
            " propels us toward faithful obedience.",
          exegetical := sample.lexical_insights.take 1,
          application := "Offer one spiritual practice and one communal action." } ]
  else basePoints sample

/-! ## Runtime Estimator (estimate_runtime, main.py lines 220-223) -/

/-- Embeds `estimate_runtime`.  Python `int(estimated_minutes * 0.65)` is
modelled exactly: the literal `0.65` denotes 13/20 and `int(...)` truncates
toward zero, i.e. `Int.tdiv (estimated_minutes * 13) 20`. -/
def estimate_runtime (estimated_minutes : Int) (interpreted : Bool) : Int :=
  if interpreted then max 10 (Int.tdiv (estimated_minutes * 13) 20)
  else estimated_minutes

/-! ## Slide Structurer (create_slides, main.py lines 230-253) -/

/-- One body slide per composed section, numbered from `idx` as Python
`enumerate(sections, start=1)` does. -/
def sectionSlides (idx : Nat) : List LessonSection → List Slide
  | [] => []
  | s :: rest =>
    { title := toString idx ++ ". " ++ s.title,
      bullets := s.content :: s.exegetical ++ [s.application],
      notes := "Guide discussion; invite observations and response." } ::
      sectionSlides (idx + 1) rest

/-- Embeds `create_slides`: opening slide, one slide per section, closing slide. -/
def create_slides (introduction : String) (sections : List LessonSection)
    (conclusion : String) : List Slide :=
  { title := "Opening Story", bullets := [introduction],
    notes := "Welcome, frame the occasion, and read the passage aloud." } ::
    sectionSlides 1 sections ++
    [ { title := "Sending Charge", bullets := [conclusion],
        notes := "Summarize commitments and pray a commissioning blessing." } ]

/-! ## Claim theorems: Runtime Estimator -/

theorem tdiv20_eq_ediv_of_nonneg (a : Int) (h : 0 ≤ a) : a.tdiv 20 = a / 20 :=
  Int.tdiv_eq_ediv h (by norm_num)

theorem tdiv20_nonpos (a : Int) (h : a ≤ 0) : a.tdiv 20 ≤ 0 := by
  obtain ⟨n, rfl⟩ : ∃ n : Nat, a = -(n : Int) := ⟨a.natAbs, by omega⟩
  rw [Int.neg_tdiv, tdiv20_eq_ediv_of_nonneg _ (by positivity)]
  have : 0 ≤ (n : Int) / 20 := by positivity
  omega

/-- C2: `estimate_runtime` returns the request unchanged when the interpreted
flag is false, and `max(10, floor(m * 0.65))` (with 0.65 = 13/20 exactly) when
it is true; in particular 35 ↦ 35 (false), 35 ↦ 22 and 10 ↦ 10 (true). -/
theorem estimate_runtime_c2 (m : Int) :
    estimate_runtime m false = m ∧
    estimate_runtime m true = max 10 (Int.fdiv (m * 13) 20) ∧
    estimate_runtime 35 false = 35 ∧
    estimate_runtime 35 true = 22 ∧
    estimate_runtime 10 true = 10 := by
  refine ⟨rfl, ?_, by decide, by decide, by decide⟩
  show max 10 ((m * 13).tdiv 20) = max 10 ((m * 13).fdiv 20)
  rcases le_or_lt 0 m with h | h
  · rw [tdiv20_eq_ediv_of_nonneg _ (by positivity),
      Int.fdiv_eq_ediv _ (by norm_num)]
  · have h1 : (m * 13).tdiv 20 ≤ 0 := tdiv20_nonpos _ (by nlinarith)
    have h2 : (m * 13).fdiv 20 ≤ 0 := by
      rw [Int.fdiv_eq_ediv _ (by norm_num)]
      have : m * 13 ≤ 0 := by nlinarith
      omega
    omega

/-- C10: with the interpreted flag true, on the enforced domain m ≥ 10 the
estimate stays between the 10-minute floor and the request, and it is
monotone in the request. -/
theorem estimate_runtime_c10 (m m' : Int) (hm : 10 ≤ m) (hmm : m ≤ m') :
    10 ≤ estimate_runtime m true ∧
    estimate_runtime m true ≤ m ∧
    estimate_runtime m true ≤ estimate_runtime m' true := by
  have e1 : estimate_runtime m true = max 10 ((m * 13) / 20) := by
    show max 10 ((m * 13).tdiv 20) = _
    rw [tdiv20_eq_ediv_of_nonneg _ (by nlinarith)]
  have e2 : estimate_runtime m' true = max 10 ((m' * 13) / 20) := by
    show max 10 ((m' * 13).tdiv 20) = _
    rw [tdiv20_eq_ediv_of_nonneg _ (by nlinarith)]
  rw [e1, e2]
  refine ⟨le_max_left _ _, ?_, ?_⟩
  · have : (m * 13) / 20 ≤ m := by omega
    omega
  · have : (m * 13) / 20 ≤ (m' * 13) / 20 := by
      have : m * 13 ≤ m' * 13 := by nlinarith
      omega
    omega

/-- Witness for C10 at the concrete pair (35, 40). -/
theorem estimate_runtime_c10_witness :
    (10 : Int) ≤ 35 ∧ (35 : Int) ≤ 40 ∧
    (10 ≤ estimate_runtime 35 true ∧ estimate_runtime 35 true ≤ 35 ∧
      estimate_runtime 35 true ≤ estimate_runtime 40 true) :=
  ⟨by decide, by decide, estimate_runtime_c10 35 40 (by decide) (by decide)⟩

/-! ## Claim theorems: Narrative Composer sections (C3) -/

/-- A catalog-shaped sample whose `lexical_insights` list is empty; the data
model allows this (the lists are ordered lists of strings with no length
precondition). -/
def lexlessSample : TextSample :=
  { reference := "Psalm 117:1", book := "Psalms",
    hebrew_focus := "הַלְלוּ", translation := "praise",
    morphology := { part_of_speech := "verb", root := "הלל" },
    exegetical_notes := ["A short doxology."],
    lexical_insights := [], themes := ["praise"] }

/-- C3 counterexample: at a sample with no lexical insights and a requested
duration of 20 minutes (< 25, so the condensed branch is taken and the
section list has 2 entries), the condensed second section's exegetical-notes
list has length 0, not 1 as the claim states for every sample. -/
theorem construct_sections_c3_counterexample :
    (20 : Int) < 25 ∧
    (construct_sections lexlessSample 20).length = 2 ∧
    ((construct_sections lexlessSample 20).getD 1 default).exegetical.length ≠ 1 := by
  refine ⟨by decide, by decide, by decide⟩

/-- C3 amended: the section list has exactly 3 entries at ≥ 25 estimated
minutes and exactly 2 below; in the condensed case the first section equals
the first section of the full case, and the condensed second section's
exegetical-notes list has length `min 1 (number of lexical insights)` —
exactly 1 whenever the sample has at least one lexical insight. -/
theorem construct_sections_c3_amended (sample : TextSample) (m full : Int)
    (hfull : 25 ≤ full) :
    (construct_sections sample full).length = 3 ∧
    (m < 25 →
      (construct_sections sample m).length = 2 ∧
      (construct_sections sample m).head? = (construct_sections sample full).head? ∧
      ((construct_sections sample m).getD 1 default).exegetical.length
        = min 1 sample.lexical_insights.length) := by
  have hf : ¬ (full < 25) := by omega
  refine ⟨by simp [construct_sections, hf, basePoints], ?_⟩
  intro hm
  refine ⟨by simp [construct_sections, hm, basePoints], ?_, ?_⟩
  · simp [construct_sections, hm, hf, basePoints]
  · simp [construct_sections, hm, basePoints, List.length_take]

/-- Witness for C3 amended at a concrete sample, m = 20, full = 30. -/
theorem construct_sections_c3_amended_witness :
    (25 : Int) ≤ 30 ∧
    ((construct_sections lexlessSample 30).length = 3 ∧
      ((20 : Int) < 25 →
        (construct_sections lexlessSample 20).length = 2 ∧
        (construct_sections lexlessSample 20).head?
          = (construct_sections lexlessSample 30).head? ∧
        ((construct_sections lexlessSample 20).getD 1 default).exegetical.length
          = min 1 lexlessSample.lexical_insights.length)) :=
  ⟨by decide, construct_sections_c3_amended lexlessSample 20 30 (by decide)⟩

/-! ## Claim theorems: Slide Structurer (C4) -/

theorem getD_append_left {α : Type} (l1 l2 : List α) (k : Nat) (d : α)
    (h : k < l1.length) : (l1 ++ l2).getD k d = l1.getD k d := by
  induction l1 generalizing k with
  | nil => simp at h
  | cons x l ih =>
    cases k with
    | zero => rfl
    | succ k => simpa using ih k (by simpa using h)

theorem sectionSlides_length (i : Nat) (ss : List LessonSection) :
    (sectionSlides i ss).length = ss.length := by
  induction ss generalizing i with
  | nil => rfl
  | cons s rest ih => simp [sectionSlides, ih]

theorem sectionSlides_getD (i k : Nat) (ss : List LessonSection)
    (h : k < ss.length) :
    (sectionSlides i ss).getD k default =
      { title := toString (i + k) ++ ". " ++ (ss.getD k default).title,
        bullets := (ss.getD k default).content ::
          (ss.getD k default).exegetical ++ [(ss.getD k default).application],
        notes := "Guide discussion; invite observations and response." } := by
  induction ss generalizing i k with
  | nil => simp at h
  | cons s rest ih =>
    cases k with
    | zero => simp [sectionSlides]
    | succ k =>
      have := ih (i + 1) k (by simpa using h)
      simp only [sectionSlides, List.getD_cons_succ]
      rw [this]
      have : i + 1 + k = i + (k + 1) := by omega
      rw [this]

/-- C4: the Slide Structurer emits exactly n + 2 slides: the fixed opening
slide with the introduction as its single bullet, one slide per composed
section in order with the 1-based numbered title and
[content, exegetical notes..., application] bullets, and the fixed closing
slide with the conclusion as its single bullet. -/
theorem create_slides_c4 (introduction conclusion : String)
    (sections : List LessonSection) (k : Nat) (hk : k < sections.length) :
    (create_slides introduction sections conclusion).length = sections.length + 2 ∧
    (create_slides introduction sections conclusion).head? =
      some { title := "Opening Story", bullets := [introduction],
             notes := "Welcome, frame the occasion, and read the passage aloud." } ∧
    (create_slides introduction sections conclusion).getLast? =
      some { title := "Sending Charge", bullets := [conclusion],
             notes := "Summarize commitments and pray a commissioning blessing." } ∧
    (create_slides introduction sections conclusion).getD (k + 1) default =
      { title := toString (k + 1) ++ ". " ++ (sections.getD k default).title,
        bullets := (sections.getD k default).content ::
          (sections.getD k default).exegetical ++
            [(sections.getD k default).application],
        notes := "Guide discussion; invite observations and response." } := by
  refine ⟨?_, rfl, ?_, ?_⟩
  · simp [create_slides, sectionSlides_length]
  · simp only [create_slides]
    rw [List.getLast?_concat]
  · simp only [create_slides]
    rw [getD_append_left _ _ (k + 1) _
        (by simp only [List.length_cons, sectionSlides_length]; omega),
      List.getD_cons_succ, sectionSlides_getD 1 k sections hk]
    have h1 : 1 + k = k + 1 := by omega
    rw [h1]

/-- A one-element concrete section list used by the C4 witness. -/
def sampleSectionList : List LessonSection :=
  [{ title := "T", content := "C", exegetical := ["E"], application := "A" }]

/-- Witness for C4 at one concrete section list (k = 0). -/
theorem create_slides_c4_witness :
    (0 : Nat) < sampleSectionList.length ∧
    ((create_slides "intro" sampleSectionList "concl").length
        = sampleSectionList.length + 2 ∧
      (create_slides "intro" sampleSectionList "concl").head? =
        some { title := "Opening Story", bullets := ["intro"],
               notes := "Welcome, frame the occasion, and read the passage aloud." } ∧
      (create_slides "intro" sampleSectionList "concl").getLast? =
        some { title := "Sending Charge", bullets := ["concl"],
               notes := "Summarize commitments and pray a commissioning blessing." } ∧
      (create_slides "intro" sampleSectionList "concl").getD (0 + 1) default =
        { title := toString (0 + 1) ++ ". " ++ (sampleSectionList.getD 0 default).title,
          bullets := (sampleSectionList.getD 0 default).content ::
            (sampleSectionList.getD 0 default).exegetical ++
              [(sampleSectionList.getD 0 default).application],
          notes := "Guide discussion; invite observations and response." }) :=
  ⟨by decide, create_slides_c4 "intro" "concl" sampleSectionList 0 (by decide)⟩

/-! ## Claim theorems: conclusion independence (C9) -/

theorem occursIn_trailing (a n : List Char) : occursIn n (a ++ n) = true := by
  have h := occursIn_append_self a n []
  simpa using h

/-- C9: the composed conclusion restates the sample's language-focus term and
the fixed three-part closing charge, and is independent of the introduction
argument. -/
theorem build_conclusion_c9 (sample : TextSample) (i1 i2 : String) :
    build_conclusion sample i1 = build_conclusion sample i2 ∧
    strOccursIn sample.hebrew_focus (build_conclusion sample i1) = true ∧
    strOccursIn
      "embrace God\x27s invitation, embody covenantal blessing, and walk toward Christlike transformation together."
      (build_conclusion sample i1) = true := by
  refine ⟨rfl, ?_, ?_⟩
  · simp only [strOccursIn, build_conclusion, String.data_append, List.append_assoc]
    exact occursIn_append_self _ _ _
  · simp only [strOccursIn, build_conclusion, String.data_append]
    exact occursIn_trailing _ _

/-! ## Claim theorems: Sample Selector (C5) -/

/-- C5: on a non-empty catalog the selector always returns a sample, chosen
by the priority order: the first catalog entry whose lowercased reference
contains the (non-empty) lowercased passage query; else the first entry one
of whose lowercased theme tags contains the (non-empty) lowercased topic
query; else the catalog's first entry.  `List.find?` is literally
first-match in catalog order. -/
theorem select_sample_c5 (catalog : List TextSample) (topic passage : Option String)
    (hne : catalog ≠ []) :
    (∃ s, select_sample catalog topic passage = some s) ∧
    (∀ s, catalog.find? (passageHit ((passage.getD "").toLower)) = some s →
      select_sample catalog topic passage = some s) ∧
    (catalog.find? (passageHit ((passage.getD "").toLower)) = none →
      ((topic.getD "").toLower).isEmpty = false →
      ∀ s, catalog.find? (themeHit ((topic.getD "").toLower)) = some s →
        select_sample catalog topic passage = some s) ∧
    (catalog.find? (passageHit ((passage.getD "").toLower)) = none →
      (((topic.getD "").toLower).isEmpty = true ∨
        catalog.find? (themeHit ((topic.getD "").toLower)) = none) →
      select_sample catalog topic passage = catalog.head?) := by
  have hhead : ∃ c, catalog.head? = some c := by
    cases catalog with
    | nil => exact absurd rfl hne
    | cons c cs => exact ⟨c, rfl⟩
  refine ⟨?_, ?_, ?_, ?_⟩
  · unfold select_sample
    cases hfp : catalog.find? (passageHit ((passage.getD "").toLower)) with
    | some s => exact ⟨s, by simp [hfp]⟩
    | none =>
      by_cases ht : ((topic.getD "").toLower).isEmpty
      · rcases hhead with ⟨c, hc⟩
        refine ⟨c, ?_⟩
        simp [hfp, ht, hc]
      · cases hft : catalog.find? (themeHit ((topic.getD "").toLower)) with
        | some s => exact ⟨s, by simp [hfp, ht, hft]⟩
        | none =>
          rcases hhead with ⟨c, hc⟩
          exact ⟨c, by simp [hfp, ht, hft, hc]⟩
  · intro s hfp
    unfold select_sample
    simp [hfp]
  · intro hfp ht s hft
    unfold select_sample
    simp [hfp, ht, hft]
  · intro hfp hrest
    unfold select_sample
    rcases hrest with ht | hft
    · simp [hfp, ht]
    · by_cases ht : ((topic.getD "").toLower).isEmpty
      · simp [hfp, ht]
      · simp [hfp, ht, hft]

/-- A two-entry concrete catalog for the C5 witness. -/
def sampleCatalog : List TextSample :=
  [ lexlessSample,
    { reference := "Ruth 1:16", book := "Ruth",
      hebrew_focus := "חֶסֶד", translation := "covenant loyalty",
      morphology := { part_of_speech := "noun", root := "חסד" },
      exegetical_notes := ["Ruth clings to Naomi."],
      lexical_insights := ["Loyal love binds the story."],
      themes := ["loyalty", "redemption"] } ]

/-- Witness for C5: concrete catalog, topic and passage queries. -/
theorem select_sample_c5_witness :
    sampleCatalog ≠ [] ∧
    ((∃ s, select_sample sampleCatalog (some "loyalty") (some "ruth") = some s) ∧
      (∀ s, sampleCatalog.find?
          (passageHit (((some "ruth").getD "").toLower)) = some s →
        select_sample sampleCatalog (some "loyalty") (some "ruth") = some s) ∧
      (sampleCatalog.find? (passageHit (((some "ruth").getD "").toLower)) = none →
        (((some "loyalty").getD "").toLower).isEmpty = false →
        ∀ s, sampleCatalog.find?
            (themeHit (((some "loyalty").getD "").toLower)) = some s →
          select_sample sampleCatalog (some "loyalty") (some "ruth") = some s) ∧
      (sampleCatalog.find? (passageHit (((some "ruth").getD "").toLower)) = none →
        ((((some "loyalty").getD "").toLower).isEmpty = true ∨
          sampleCatalog.find?
            (themeHit (((some "loyalty").getD "").toLower)) = none) →
        select_sample sampleCatalog (some "loyalty") (some "ruth")
          = sampleCatalog.head?)) :=
  ⟨by decide, select_sample_c5 sampleCatalog (some "loyalty") (some "ruth") (by decide)⟩

/-! ## Claim theorems: Congregation Context Resolver (C6) -/

/-- C6: the resolver falls back to the "default" profile for an unknown
identifier, silently drops significant-date entries whose stored date failed
to parse (the function is total — no error path exists), and its event list
contains only events within 21 days, sorted ascending by distance. -/
theorem congregation_context_c6 (cal : List (String × CongregationProfile))
    (cid : String) (targetDay : Int) :
    (lookupProfile cal cid = none →
      congregation_context cal cid targetDay
        = congregation_context cal "default" targetDay) ∧
    (∀ e ∈ (congregation_context cal cid targetDay).nearby_events,
      e.days_apart ≤ 21) ∧
    (congregation_context cal cid targetDay).nearby_events.Pairwise
      (fun a b => a.days_apart ≤ b.days_apart) ∧
    (∀ (nm loc : Option String) (vals : List String)
        (l1 l2 : List SignificantDate) (item : SignificantDate),
      item.date = none →
      contextOfRecord ⟨nm, loc, vals, l1 ++ item :: l2⟩ targetDay
        = contextOfRecord ⟨nm, loc, vals, l1 ++ l2⟩ targetDay) := by
  refine ⟨?_, ?_, ?_, ?_⟩
  · intro hmiss
    unfold congregation_context
    rw [hmiss]
    cases hdef : lookupProfile cal "default" <;> simp [hdef]
  · intro e he
    have he' := (mem_sortByKey _ _ e).mp he
    rcases List.mem_filterMap.mp he' with ⟨item, _, hstep⟩
    cases hd : item.date with
    | none => rw [hd] at hstep; exact absurd hstep (by simp)
    | some d =>
      rw [hd] at hstep
      by_cases hlt : |targetDay - d| ≤ 21
      · simp only [hlt, if_pos, reduceIte] at hstep
        cases hstep
        simpa using hlt
      · simp [hlt] at hstep
  · exact sortByKey_sorted _ _
  · intro nm loc vals l1 l2 item hitem
    unfold contextOfRecord
    simp [List.filterMap_append, List.filterMap_cons, hitem]

/-- A concrete congregation calendar for the C6 witness: only a "default"
profile, holding one unparseable-dated entry and two dated entries. -/
def sampleCongCal : List (String × CongregationProfile) :=
  [ ("default",
    { name := some "Default Fellowship", location := some "Anytown",
      values := ["hospitality"],
      significant_dates :=
        [ { date := none, description := "corrupted entry", emphasis := none },
          { date := some 105, description := "harvest festival",
            emphasis := some "Gratitude" },
          { date := some 95, description := "youth retreat", emphasis := none } ] }) ]

/-- Witness for C6 with an unknown congregation identifier. -/
theorem congregation_context_c6_witness :
    (lookupProfile sampleCongCal "unknown-cong" = none →
      congregation_context sampleCongCal "unknown-cong" 100
        = congregation_context sampleCongCal "default" 100) ∧
    (∀ e ∈ (congregation_context sampleCongCal "unknown-cong" 100).nearby_events,
      e.days_apart ≤ 21) ∧
    (congregation_context sampleCongCal "unknown-cong" 100).nearby_events.Pairwise
      (fun a b => a.days_apart ≤ b.days_apart) ∧
    (∀ (nm loc : Option String) (vals : List String)
        (l1 l2 : List SignificantDate) (item : SignificantDate),
      item.date = none →
      contextOfRecord ⟨nm, loc, vals, l1 ++ item :: l2⟩ 100
        = contextOfRecord ⟨nm, loc, vals, l1 ++ l2⟩ 100) :=
  congregation_context_c6 sampleCongCal "unknown-cong" 100

/-! ## Calendar Converter, civil side.

Modelled from the spec: the Calendar Converter (spec §4.1) is realized in
the program by the third-party `convertdate` library
(`hebrew.from_gregorian` / `hebrew.to_gregorian`, backed by
`convertdate.gregorian`), which is not part of the source tree.  It is
embedded here following the spec: pure deterministic functions over the
proleptic rules of the civil (Gregorian) calendar and of the arithmetic
lunisolar liturgical calendar, with combinations that do not exist
surfacing as an absent (`Option`) result, never a crash.  A date is carried
as its integer day number `J` (Julian day − 0.5, so midnight-to-midnight
civil days are consecutive integers); all the library's divisions have
positive literal divisors, so Python floor division and `%` are `Int.ediv`
(`/`) and `Int.emod` (`%`), and `math.trunc` is `Int.tdiv`. -/

def gregorianLeap (year : Int) : Bool :=
  year % 4 == 0 && !(year % 100 == 0 && year % 400 != 0)

def gregorianMonthLen (year month : Int) : Int :=
  if month = 2 then (if gregorianLeap year then 29 else 28)
  else if month = 4 ∨ month = 6 ∨ month = 9 ∨ month = 11 then 30 else 31

/-- The dates Python's `datetime(year, month, day)` accepts; outside this
range the constructor raises `ValueError`. -/
def validCivil (year month day : Int) : Prop :=
  1 ≤ year ∧ year ≤ 9999 ∧ 1 ≤ month ∧ month ≤ 12 ∧
    1 ≤ day ∧ day ≤ gregorianMonthLen year month

instance validCivil_dec (y m d : Int) : Decidable (validCivil y m d) := by
  unfold validCivil; infer_instance

/-- `convertdate.gregorian.to_jd`, in `J` convention. -/
def gregorianToJd (year month day : Int) : Int :=
  let leap_adj : Int := if month ≤ 2 then 0 else if gregorianLeap year then -1 else -2
  1721424 + 365 * (year - 1) + (year - 1) / 4 - (year - 1) / 100 + (year - 1) / 400
    + (367 * month - 362) / 12 + leap_adj + day

/-- The year-extraction block of `convertdate.gregorian.from_jd`. -/
def gfjYear (J : Int) : Int :=
  let depoch := J - 1721425
  let quadricent := depoch / 146097
  let dqc := depoch % 146097
  let cent := dqc / 36524
  let dcent := dqc % 36524
  let quad := dcent / 1461
  let dquad := dcent % 1461
  let yindex := dquad / 365
  let year := quadricent * 400 + cent * 100 + quad * 4 + yindex
  if cent = 4 ∨ yindex = 4 then year else year + 1

/-- The month-extraction block of `convertdate.gregorian.from_jd`. -/
def gfjMonth (J : Int) : Int :=
  let year := gfjYear J
  let yearday := J - gregorianToJd year 1 1
  let leapadj : Int := if J < gregorianToJd year 3 1 then 0
    else if gregorianLeap year then 1 else 2
  ((yearday + leapadj) * 12 + 373) / 367

/-- `convertdate.gregorian.from_jd`: year, month, then
`day = int(wjd - to_jd(year, month, 1)) + 1`. -/
def gregorianFromJd (J : Int) : Int × Int × Int :=
  (gfjYear J, gfjMonth J, J - gregorianToJd (gfjYear J) (gfjMonth J) 1 + 1)

theorem gregorianToJd_day (y m d : Int) :
    gregorianToJd y m d = gregorianToJd y m 1 + (d - 1) := by
  unfold gregorianToJd
  split_ifs <;> ring

/-- Converting any day number to a civil triple and back is the identity:
`to_jd` is affine in the day argument with the very offset `from_jd`
computed, whatever year and month the extraction settled on. -/
theorem gregorianToJd_fromJd (J : Int) :
    gregorianToJd (gregorianFromJd J).1 (gregorianFromJd J).2.1
      (gregorianFromJd J).2.2 = J := by
  show gregorianToJd (gfjYear J) (gfjMonth J)
    (J - gregorianToJd (gfjYear J) (gfjMonth J) 1 + 1) = J
  rw [gregorianToJd_day]
  ring

/-- Day count from the civil epoch to the end of year `n` (Jan 1 of year
`n + 1` is day `1721425 + gdays n`). -/
def gdays (n : Int) : Int := 365 * n + n / 4 - n / 100 + n / 400

theorem gregorianToJd_jan1 (y : Int) : gregorianToJd y 1 1 = 1721425 + gdays (y - 1) := by
  unfold gregorianToJd gdays
  norm_num
  ring

theorem gfjYear_core (a b c v t : Int) (hb : 0 ≤ b ∧ b ≤ 3)
    (hc : 0 ≤ c ∧ c ≤ 24) (hv : 0 ≤ v ∧ v ≤ 3) (ht : 0 ≤ t)
    (hB : t ≤ 364 ∨ (t = 365 ∧ v = 3 ∧ (c ≤ 23 ∨ b = 3))) :
    gfjYear (1721425 + (146097 * a + 36524 * b + 1461 * c + 365 * v) + t)
      = 400 * a + 100 * b + 4 * c + v + 1 := by
  simp only [gfjYear]
  rw [show (1721425 + (146097 * a + 36524 * b + 1461 * c + 365 * v) + t - 1721425 : Int)
      = 146097 * a + (36524 * b + 1461 * c + 365 * v + t) from by ring]
  have h1 : (146097 * a + (36524 * b + 1461 * c + 365 * v + t)) / 146097 = a := by omega
  have h2 : (146097 * a + (36524 * b + 1461 * c + 365 * v + t)) % 146097
      = 36524 * b + 1461 * c + 365 * v + t := by omega
  rw [h1, h2]
  rcases hB with hB | ⟨hB, hv3, hsp⟩
  · have h3 : (36524 * b + 1461 * c + 365 * v + t) / 36524 = b := by omega
    have h4 : (36524 * b + 1461 * c + 365 * v + t) % 36524
        = 1461 * c + 365 * v + t := by omega
    rw [h3, h4]
    have h5 : (1461 * c + 365 * v + t) / 1461 = c := by omega
    have h6 : (1461 * c + 365 * v + t) % 1461 = 365 * v + t := by omega
    rw [h5, h6]
    have h7 : (365 * v + t) / 365 = v := by omega
    rw [h7]
    rw [if_neg (by omega)]
    ring
  · subst hB hv3
    by_cases hc23 : c ≤ 23
    · have h3 : (36524 * b + 1461 * c + 365 * 3 + 365) / 36524 = b := by omega
      have h4 : (36524 * b + 1461 * c + 365 * 3 + 365) % 36524 = 1461 * c + 1460 := by
        omega
      rw [h3, h4]
      have h5 : (1461 * c + 1460) / 1461 = c := by omega
      have h6 : (1461 * c + 1460) % 1461 = 1460 := by omega
      rw [h5, h6]
      rw [if_pos (by norm_num)]
      ring
    · have hc24 : c = 24 := by omega
      have hb3 : b = 3 := by tauto
      subst hc24 hb3
      have h3 : (36524 * 3 + 1461 * 24 + 365 * 3 + 365 : Int) / 36524 = 4 := by norm_num
      have h4 : (36524 * 3 + 1461 * 24 + 365 * 3 + 365 : Int) % 36524 = 0 := by norm_num
      rw [h3, h4]
      rw [if_pos (by norm_num)]
      norm_num
      ring

theorem gfjYear_correct (y t : Int) (hy : 1 ≤ y) (ht : 0 ≤ t)
    (hlt : t < 365 + (if gregorianLeap y then 1 else 0)) :
    gfjYear (1721425 + gdays (y - 1) + t) = y := by
  have hleap : (gregorianLeap y = true) ↔ (y % 4 = 0 ∧ ¬(y % 100 = 0 ∧ ¬ y % 400 = 0)) := by
    simp [gregorianLeap]; tauto
  obtain ⟨a, s, has, hs0, hs1⟩ : ∃ a s, y - 1 = 400 * a + s ∧ 0 ≤ s ∧ s < 400 :=
    ⟨(y - 1) / 400, (y - 1) % 400, by omega, by omega, by omega⟩
  obtain ⟨b, u, hbu, hu0, hu1⟩ : ∃ b u, s = 100 * b + u ∧ 0 ≤ u ∧ u < 100 :=
    ⟨s / 100, s % 100, by omega, by omega, by omega⟩
  obtain ⟨c, v, hcv, hv0, hv1⟩ : ∃ c v, u = 4 * c + v ∧ 0 ≤ v ∧ v < 4 :=
    ⟨u / 4, u % 4, by omega, by omega, by omega⟩
  have hgd : gdays (y - 1) = 146097 * a + 36524 * b + 1461 * c + 365 * v := by
    unfold gdays; omega
  have hyv : y = 400 * a + 100 * b + 4 * c + v + 1 := by omega
  rw [hgd, hyv]
  apply gfjYear_core a b c v t (by omega) (by omega) (by omega) ht
  by_cases hB : t ≤ 364
  · exact Or.inl hB
  · have hl : gregorianLeap y = true := by
      by_contra hq
      rw [Bool.not_eq_true] at hq
      rw [hq] at hlt
      simp at hlt
      omega
    have ht365 : t = 365 := by
      rw [hl] at hlt
      simp at hlt
      omega
    rw [hleap] at hl
    obtain ⟨hl4, hlr⟩ := hl
    have hv3 : v = 3 := by clear hlr hleap hlt; omega
    have hl100 : y % 100 = 0 → y % 400 = 0 := by tauto
    clear hleap hlr hlt
    refine Or.inr ⟨ht365, hv3, ?_⟩
    by_cases hc23 : c ≤ 23
    · exact Or.inl hc23
    · refine Or.inr ?_
      have hc24 : c = 24 := by omega
      have h100 : y % 100 = 0 := by omega
      have h400 := hl100 h100
      omega

theorem gregorianToJd_split (y m d : Int) :
    gregorianToJd y m d = gregorianToJd y 1 1 + ((367 * m - 362) / 12 +
      (if m ≤ 2 then 0 else (if gregorianLeap y then (1:Int) else 0) - 2) + (d - 1)) := by
  simp only [gregorianToJd]
  split_ifs <;> omega

theorem gregorianToJd_mar1 (y : Int) :
    gregorianToJd y 3 1 = gregorianToJd y 1 1 + 59 +
      (if gregorianLeap y then (1:Int) else 0) := by
  simp only [gregorianToJd]
  split_ifs <;> omega

set_option maxHeartbeats 2000000 in
theorem gMonthFacts (m d L : Int) (hm1 : 1 ≤ m) (hm2 : m ≤ 12) (hL0 : 0 ≤ L) (hL1 : L ≤ 1)
    (hd1 : 1 ≤ d)
    (hd2 : d ≤ (if m = 2 then 28 + L else if m = 4 ∨ m = 6 ∨ m = 9 ∨ m = 11 then 30 else 31)) :
    (0 ≤ (367 * m - 362) / 12 + (if m ≤ 2 then 0 else L - 2) + (d - 1)) ∧
    ((367 * m - 362) / 12 + (if m ≤ 2 then 0 else L - 2) + (d - 1) < 365 + L) ∧
    (((367 * m - 362) / 12 + (if m ≤ 2 then 0 else L - 2) + (d - 1) < 59 + L) ↔ m ≤ 2) ∧
    ((((367 * m - 362) / 12 + (if m ≤ 2 then 0 else L - 2) + (d - 1)) +
      (if m ≤ 2 then 0 else 2 - L)) * 12 + 373) / 367 = m := by
  interval_cases m <;> norm_num at hd2 ⊢ <;> omega

set_option maxHeartbeats 2000000 in
theorem gregorianFromJd_gregorianToJd (y m d : Int) (h : validCivil y m d) :
    gregorianFromJd (gregorianToJd y m d) = (y, m, d) := by
  obtain ⟨h1, h2, h3, h4, h5, h6⟩ := h
  have hd2 : d ≤ (if m = 2 then 28 + (if gregorianLeap y then (1:Int) else 0)
      else if m = 4 ∨ m = 6 ∨ m = 9 ∨ m = 11 then 30 else 31) := by
    unfold gregorianMonthLen at h6
    split_ifs at h6 ⊢ <;> omega
  have hL0 : (0:Int) ≤ (if gregorianLeap y then (1:Int) else 0) := by split_ifs <;> norm_num
  have hL1 : (if gregorianLeap y then (1:Int) else 0) ≤ 1 := by split_ifs <;> norm_num
  obtain ⟨mf1, mf2, mf3, mf4⟩ :=
    gMonthFacts m d (if gregorianLeap y then (1:Int) else 0) h3 h4 hL0 hL1 h5 hd2
  have hsplit := gregorianToJd_split y m d
  have hjan1 := gregorianToJd_jan1 y
  have hmar := gregorianToJd_mar1 y
  have hyear : gfjYear (gregorianToJd y m d) = y := by
    rw [hsplit, hjan1, show (1721425 + gdays (y - 1) +
      ((367 * m - 362) / 12 + (if m ≤ 2 then 0 else (if gregorianLeap y then (1:Int) else 0) - 2) + (d - 1))) =
      1721425 + gdays (y - 1) +
      ((367 * m - 362) / 12 + (if m ≤ 2 then 0 else (if gregorianLeap y then (1:Int) else 0) - 2) + (d - 1)) from rfl]
    exact gfjYear_correct y _ h1 mf1 mf2
  have hmonth : gfjMonth (gregorianToJd y m d) = m := by
    simp only [gfjMonth]
    rw [hyear]
    have hyd : gregorianToJd y m d - gregorianToJd y 1 1 =
        (367 * m - 362) / 12 +
          (if m ≤ 2 then 0 else (if gregorianLeap y then (1:Int) else 0) - 2) + (d - 1) := by
      rw [hsplit]; ring
    rw [hyd]
    have hadj : (if gregorianToJd y m d < gregorianToJd y 3 1 then (0:Int)
        else if gregorianLeap y then 1 else 2) =
        (if m ≤ 2 then (0:Int) else 2 - (if gregorianLeap y then (1:Int) else 0)) := by
      have hcmp : gregorianToJd y m d < gregorianToJd y 3 1 ↔ m ≤ 2 := by
        rw [hsplit, hmar]
        constructor
        · intro hx
          apply mf3.mp
          omega
        · intro hx
          have := mf3.mpr hx
          omega
      rw [if_congr hcmp rfl rfl]
      split_ifs <;> omega
    rw [hadj]
    exact mf4
  simp only [gregorianFromJd]
  rw [hyear, hmonth]
  refine Prod.ext rfl (Prod.ext rfl ?_)
  show gregorianToJd y m d - gregorianToJd y m 1 + 1 = d
  rw [gregorianToJd_split y m d, gregorianToJd_split y m 1]
  ring

/-! ## Calendar Converter, liturgical side (`convertdate.hebrew`).

Modelled from the spec: the arithmetic lunisolar liturgical calendar, as
realized by the `convertdate.hebrew` module the program imports (not part
of the source tree).  Years begin at 1 Tishri (month 7); months 7..12/13
precede months 1..6 chronologically.  `from_jd`'s year search is a loop
whose iteration count the library leaves unbounded; it is given explicit
fuel here, and the no-month-found case of the month search models the
`ValueError` the library raises for a month index beyond 13 — both
`Option` outcomes are proved unreachable for in-range day numbers. -/

def hebrewLeap (year : Int) : Bool := (7 * year + 1) % 19 < 7

def hebrewYearMonths (year : Int) : Int := if hebrewLeap year then 13 else 12

/-- Months elapsed before Hebrew year `year`:
`trunc(((235 * year) - 234) / 19)`. -/
def hebrewMolM (year : Int) : Int := Int.tdiv (235 * year - 234) 19

def hebrewParts (year : Int) : Int := 12084 + 13753 * hebrewMolM year

/-- `convertdate.hebrew.delay_1`: molad day of Tishri with the Sunday /
Wednesday / Friday postponement. -/
def hebrewDelay1 (year : Int) : Int :=
  let day := 29 * hebrewMolM year + Int.tdiv (hebrewParts year) 25920
  if (3 * (day + 1)) % 7 < 3 then day + 1 else day

/-- `convertdate.hebrew.delay_2`: postponement keeping year lengths legal. -/
def hebrewDelay2 (year : Int) : Int :=
  if hebrewDelay1 (year + 1) - hebrewDelay1 year = 356 then 2
  else if hebrewDelay1 year - hebrewDelay1 (year - 1) = 382 then 1
  else 0

/-- Day number of 1 Tishri of `year` (`to_jd(year, 7, 1)`). -/
def hebrewNewYear (year : Int) : Int := 347997 + hebrewDelay1 year + hebrewDelay2 year

/-- `convertdate.hebrew.year_days`. -/
def hebrewYearDays (year : Int) : Int := hebrewNewYear (year + 1) - hebrewNewYear year

/-- `convertdate.hebrew.month_days` for month indices 1..13; the library
raises for an index above 13, which callers below model as an absent
result before ever calling this. -/
def hebrewMonthDays (year month : Int) : Int :=
  if month = 2 ∨ month = 4 ∨ month = 6 ∨ month = 10 ∨ month = 13 then 29
  else if month = 12 ∧ ¬(hebrewLeap year = true) then 29
  else if month = 8 ∧ ¬(hebrewYearDays year % 10 = 5) then 29
  else if month = 9 ∧ hebrewYearDays year % 10 = 3 then 29
  else 30

/-- The integers `lo, lo+1, ..., hi-1` (Python `range(lo, hi)`). -/
def intRangeList (lo hi : Int) : List Int :=
  (List.range (hi - lo).toNat).map (fun k : Nat => lo + (k : Int))

def hebrewMonthsSum (year lo hi : Int) : Int :=
  ((intRangeList lo hi).map (hebrewMonthDays year)).sum

/-- `convertdate.hebrew.to_jd`: start-of-year molad day plus the lengths of
the chronologically earlier months of the year. -/
def hebrewToJd (year month day : Int) : Int :=
  let base := 347997 + hebrewDelay1 year + hebrewDelay2 year + (day - 1)
  if month < 7 then
    base + hebrewMonthsSum year 7 (hebrewYearMonths year + 1) + hebrewMonthsSum year 1 month
  else
    base + hebrewMonthsSum year 7 month

/-- The year loop of `convertdate.hebrew.from_jd`: first `i ≥ start` with
`J < new_year(i)`, with explicit fuel. -/
def hebrewYearSearch (J : Int) : Nat → Int → Option Int
  | 0, _ => none
  | fuel + 1, i => if J < hebrewNewYear i then some i else hebrewYearSearch J fuel (i + 1)

/-- The month loop of `from_jd`: first month index in `first..13` whose last
day is not before `J`; `none` models the library's `ValueError` when the
loop would reach month index 14. -/
def hebrewMonthSearch (J year first : Int) : Option Int :=
  (intRangeList first 14).find?
    (fun i => decide (J ≤ hebrewToJd year i (hebrewMonthDays year i)))

/-- `convertdate.hebrew.from_jd` (with `count` the library's estimate
`trunc((jd - EPOCH) * 98496 / 35975351)`). -/
def hebrewFromJd (J : Int) : Option (Int × Int × Int) :=
  match hebrewYearSearch J 20000 (Int.tdiv ((J - 347995) * 98496) 35975351) with
  | none => none
  | some i =>
    match hebrewMonthSearch J (i - 1) (if J < hebrewToJd (i - 1) 1 1 then 7 else 1) with
    | none => none
    | some month => some (i - 1, month, J - hebrewToJd (i - 1) month 1 + 1)

/-- `convertdate.hebrew.from_gregorian` — the spec's `civilToLiturgical`. -/
def hebrewFromGregorian (y m d : Int) : Option (Int × Int × Int) :=
  hebrewFromJd (gregorianToJd y m d)

/-- `convertdate.hebrew.to_gregorian` — the spec's `liturgicalToCivil`. -/
def hebrewToGregorian (hy hm hd : Int) : Int × Int × Int :=
  gregorianFromJd (hebrewToJd hy hm hd)

/-! ## Proof layer for the liturgical calendar: the molad arithmetic in
`ediv`/`emod` form, and the classical bounds on year lengths. -/

/-- Molad day of Tishri before postponement, in floor-division form. -/
def hD0 (y : Int) : Int :=
  29 * ((235 * y - 234) / 19) + (12084 + 13753 * ((235 * y - 234) / 19)) / 25920

/-- Molad remainder (parts) of the year, mod 25920. -/
def hR (y : Int) : Int := (12084 + 13753 * ((235 * y - 234) / 19)) % 25920

/-- The first postponement as a 0/1 value. -/
def hPost (y : Int) : Int := if (3 * (hD0 y + 1)) % 7 < 3 then 1 else 0

/-- Length of year `y` before the second postponement. -/
def hLgap (y : Int) : Int := hebrewDelay1 (y + 1) - hebrewDelay1 y

theorem hebrewMolM_eq (y : Int) (hy : 1 ≤ y) :
    hebrewMolM y = (235 * y - 234) / 19 :=
  Int.tdiv_eq_ediv (by omega) (by norm_num)

theorem hebrewDelay1_eq (y : Int) (hy : 1 ≤ y) :
    hebrewDelay1 y = hD0 y + hPost y := by
  have hM : hebrewMolM y = (235 * y - 234) / 19 := hebrewMolM_eq y hy
  have hM0 : 0 ≤ (235 * y - 234) / 19 := Int.ediv_nonneg (by omega) (by norm_num)
  have hP : Int.tdiv (hebrewParts y) 25920
      = (12084 + 13753 * ((235 * y - 234) / 19)) / 25920 := by
    rw [hebrewParts, hM]
    exact Int.tdiv_eq_ediv (by omega) (by norm_num)
  simp only [hebrewDelay1, hD0, hPost]
  rw [hP, hM]
  split_ifs <;> omega

theorem hPost_char (y : Int) :
    (hPost y = 1 ↔ ((hD0 y + 1) % 7 = 0 ∨ (hD0 y + 1) % 7 = 3 ∨ (hD0 y + 1) % 7 = 5)) ∧
    (hPost y = 0 ∨ hPost y = 1) := by
  obtain ⟨q, r, hqr, hr0, hr1⟩ : ∃ q r, hD0 y + 1 = 7 * q + r ∧ 0 ≤ r ∧ r < 7 :=
    ⟨(hD0 y + 1) / 7, (hD0 y + 1) % 7, by omega, by omega, by omega⟩
  simp only [hPost]
  split_ifs with h <;> interval_cases r <;> omega

theorem hMdiff (y : Int) (hy : 1 ≤ y) :
    (235 * (y + 1) - 234) / 19 - (235 * y - 234) / 19
      = 12 + (if hebrewLeap y then 1 else 0) := by
  have hl : hebrewLeap y = true ↔ (7 * y + 1) % 19 < 7 := by
    simp [hebrewLeap]
  obtain ⟨k, w, hkw, hw0, hw1⟩ : ∃ k w, y = 19 * k + w ∧ 0 ≤ w ∧ w < 19 :=
    ⟨y / 19, y % 19, by omega, by omega, by omega⟩
  split_ifs with h <;> rw [hl] at h <;> subst hkw <;> interval_cases w <;> omega

theorem hD0_diff (y : Int) (hy : 1 ≤ y) :
    (hebrewLeap y = false →
      hD0 (y + 1) - hD0 y = 354 + (if 16404 ≤ hR y then 1 else 0) ∧
      hR (y + 1) = (if 16404 ≤ hR y then hR y - 16404 else hR y + 9516)) ∧
    (hebrewLeap y = true →
      hD0 (y + 1) - hD0 y = 383 + (if 2651 ≤ hR y then 1 else 0) ∧
      hR (y + 1) = (if 2651 ≤ hR y then hR y - 2651 else hR y + 23269)) := by
  have hM := hMdiff y hy
  constructor
  · intro hnl
    rw [hnl] at hM
    simp only [Bool.false_eq_true, if_false] at hM
    simp only [hD0, hR]
    constructor <;> split_ifs with h <;> omega
  · intro hl
    rw [hl] at hM
    simp only [if_true] at hM
    simp only [hD0, hR]
    constructor <;> split_ifs with h <;> omega

theorem hLgap_eq (y : Int) (hy : 1 ≤ y) :
    hLgap y = (hD0 (y + 1) - hD0 y) + hPost (y + 1) - hPost y := by
  simp only [hLgap]
  rw [hebrewDelay1_eq (y + 1) (by omega), hebrewDelay1_eq y hy]
  ring

theorem hR_lt (y : Int) : 0 ≤ hR y ∧ hR y < 25920 := by
  simp only [hR]; omega

theorem hLgap_bounds (y : Int) (hy : 1 ≤ y) :
    (hebrewLeap y = false → 353 ≤ hLgap y ∧ hLgap y ≤ 356) ∧
    (hebrewLeap y = true → 382 ≤ hLgap y ∧ hLgap y ≤ 385) := by
  have hE := hLgap_eq y hy
  have hD := hD0_diff y hy
  have hp1 := (hPost_char y).2
  have hp2 := (hPost_char (y + 1)).2
  constructor <;> intro h
  · obtain ⟨h1, _⟩ := hD.1 h
    split_ifs at h1 <;> omega
  · obtain ⟨h1, _⟩ := hD.2 h
    split_ifs at h1 <;> omega

theorem hL356_struct (y : Int) (hy : 1 ≤ y) (h : hLgap y = 356) :
    hebrewLeap y = false ∧ hD0 (y + 1) - hD0 y = 355 ∧ hPost y = 0 ∧
      hPost (y + 1) = 1 ∧ hD0 y % 7 = 1 ∧ 16404 ≤ hR y := by
  have hE := hLgap_eq y hy
  have hD := hD0_diff y hy
  have hp1 := (hPost_char y).2
  have hp2 := (hPost_char (y + 1)).2
  have hnl : hebrewLeap y = false := by
    cases hb : hebrewLeap y
    · rfl
    · exfalso
      obtain ⟨h1, _⟩ := hD.2 hb
      split_ifs at h1 <;> omega
  obtain ⟨h1, h2⟩ := hD.1 hnl
  have hd355 : hD0 (y + 1) - hD0 y = 355 ∧ 16404 ≤ hR y := by
    split_ifs at h1 <;> omega
  have hpy : hPost y = 0 ∧ hPost (y + 1) = 1 := by omega
  have hc1 := (hPost_char y).1
  have hc2 := (hPost_char (y + 1)).1
  have hn1 : ¬((hD0 y + 1) % 7 = 0 ∨ (hD0 y + 1) % 7 = 3 ∨ (hD0 y + 1) % 7 = 5) := by
    intro hx
    have := hc1.mpr hx
    omega
  have hx2 := hc2.mp (by omega)
  have hmod : hD0 y % 7 = 1 := by omega
  exact ⟨hnl, hd355.1, hpy.1, hpy.2, hmod, hd355.2⟩

theorem hL356_not_next (y : Int) (hy : 1 ≤ y) (h : hLgap y = 356) :
    hLgap (y + 1) ≠ 356 := by
  intro h'
  have hs := hL356_struct y hy h
  have hs' := hL356_struct (y + 1) (by omega) h'
  have hD := hD0_diff y hy
  obtain ⟨_, h2⟩ := hD.1 hs.1
  rw [if_pos hs.2.2.2.2.2] at h2
  have hb := hR_lt y
  have hb' := hs'.2.2.2.2.2
  omega

theorem hL_excl (y : Int) (hy : 1 ≤ y) (h356 : hLgap (y + 1) = 356) :
    hLgap y ≠ 354 ∧ hLgap y ≠ 355 ∧ hLgap y ≠ 384 ∧ hLgap y ≠ 385 := by
  have hs' := hL356_struct (y + 1) (by omega) h356
  have hE := hLgap_eq y hy
  have hD := hD0_diff y hy
  have hp1 := (hPost_char y).2
  have hc1 := (hPost_char y).1
  have hpy1 : hPost (y + 1) = 0 := hs'.2.2.1
  have hmod7 : hD0 (y + 1) % 7 = 1 := hs'.2.2.2.2.1
  have hR1 : 16404 ≤ hR (y + 1) := hs'.2.2.2.2.2
  have hrb := hR_lt y
  refine ⟨?_, ?_, ?_, ?_⟩ <;> intro hLy
  · have hnl : hebrewLeap y = false := by
      cases hb : hebrewLeap y
      · rfl
      · exfalso
        obtain ⟨h1, _⟩ := hD.2 hb
        split_ifs at h1 <;> omega
    obtain ⟨h1, h2⟩ := hD.1 hnl
    by_cases hind : 16404 ≤ hR y
    · rw [if_pos hind] at h2
      omega
    · rw [if_neg hind] at h1
      have hpy : hPost y = 0 := by omega
      have hx : (hD0 y + 1) % 7 = 5 := by omega
      have := hc1.mpr (by tauto)
      omega
  · have hnl : hebrewLeap y = false := by
      cases hb : hebrewLeap y
      · rfl
      · exfalso
        obtain ⟨h1, _⟩ := hD.2 hb
        split_ifs at h1 <;> omega
    obtain ⟨h1, h2⟩ := hD.1 hnl
    by_cases hind : 16404 ≤ hR y
    · rw [if_pos hind] at h2
      omega
    · rw [if_neg hind] at h1
      omega
  · have hl : hebrewLeap y = true := by
      cases hb : hebrewLeap y
      · exfalso
        obtain ⟨h1, _⟩ := hD.1 hb
        split_ifs at h1 <;> omega
      · rfl
    obtain ⟨h1, h2⟩ := hD.2 hl
    by_cases hind : 2651 ≤ hR y
    · rw [if_pos hind] at h1
      have hpy : hPost y = 0 := by omega
      have hx : (hD0 y + 1) % 7 = 3 := by omega
      have := hc1.mpr (by tauto)
      omega
    · rw [if_neg hind] at h1
      omega
  · have hl : hebrewLeap y = true := by
      cases hb : hebrewLeap y
      · exfalso
        obtain ⟨h1, _⟩ := hD.1 hb
        split_ifs at h1 <;> omega
      · rfl
    obtain ⟨h1, h2⟩ := hD.2 hl
    by_cases hind : 2651 ≤ hR y
    · rw [if_pos hind] at h1
      omega
    · rw [if_neg hind] at h1
      omega

theorem hebrewDelay2_eq (y : Int) :
    hebrewDelay2 y = if hLgap y = 356 then 2
      else if hLgap (y - 1) = 382 then 1 else 0 := by
  have hc : hebrewDelay1 (y - 1 + 1) = hebrewDelay1 y := congrArg hebrewDelay1 (by ring)
  simp only [hebrewDelay2, hLgap, hc]

theorem hebrewDelay2_range (y : Int) : 0 ≤ hebrewDelay2 y ∧ hebrewDelay2 y ≤ 2 := by
  rw [hebrewDelay2_eq]
  split_ifs <;> omega

theorem hebrewYearDays_eq (y : Int) :
    hebrewYearDays y = hLgap y + hebrewDelay2 (y + 1) - hebrewDelay2 y := by
  simp only [hebrewYearDays, hebrewNewYear, hLgap]
  ring

/-- The classical bounds on Hebrew year lengths: within the program's
sweep range every common year has 351..355 days and every leap year
380..385 days — in particular never more, which is what rules the
`from_jd` month loop's failure path out. -/
theorem hYd_bounds (y : Int) (hy : 1 ≤ y) :
    (hebrewLeap y = false → 351 ≤ hebrewYearDays y ∧ hebrewYearDays y ≤ 355) ∧
    (hebrewLeap y = true → 380 ≤ hebrewYearDays y ∧ hebrewYearDays y ≤ 385) := by
  have hyd := hebrewYearDays_eq y
  have hb := hLgap_bounds y hy
  have hd2y := hebrewDelay2_eq y
  have hd2y1 := hebrewDelay2_eq (y + 1)
  rw [show (y + 1 - 1 : Int) = y from by ring] at hd2y1
  have hr2y := hebrewDelay2_range y
  have hr2y1 := hebrewDelay2_range (y + 1)
  by_cases h356 : hLgap (y + 1) = 356
  · have hexcl := hL_excl y hy h356
    have hy356 : hLgap y ≠ 356 := fun hx => hL356_not_next y hy hx h356
    constructor <;> intro h
    · have hb1 := hb.1 h
      rw [hd2y1, hd2y] at hyd
      split_ifs at hyd <;> omega
    · have hb2 := hb.2 h
      rw [hd2y1, hd2y] at hyd
      split_ifs at hyd <;> omega
  · constructor <;> intro h
    · have hb1 := hb.1 h
      rw [hd2y1, hd2y] at hyd
      split_ifs at hyd <;> omega
    · have hb2 := hb.2 h
      rw [hd2y1, hd2y] at hyd
      split_ifs at hyd <;> omega

/-! ## Month lengths and month sums. -/

theorem hebrewMonthDays_range (y m : Int) :
    29 ≤ hebrewMonthDays y m ∧ hebrewMonthDays y m ≤ 30 := by
  simp only [hebrewMonthDays]
  split_ifs <;> omega

theorem hebrewMonthsSum_nonneg (y lo hi : Int) : 0 ≤ hebrewMonthsSum y lo hi := by
  apply List.sum_nonneg
  intro x hx
  rcases List.mem_map.mp hx with ⟨i, _, rfl⟩
  exact le_trans (by norm_num) (hebrewMonthDays_range y i).1

theorem intRangeList_succ (lo b : Int) (h : lo ≤ b) :
    intRangeList lo (b + 1) = intRangeList lo b ++ [b] := by
  simp only [intRangeList]
  rw [show (b + 1 - lo : Int) = (b - lo) + 1 from by ring]
  rw [Int.toNat_add (by omega) (by norm_num)]
  rw [show (1 : Int).toNat = 1 from rfl, List.range_succ, List.map_append]
  simp only [List.map_cons, List.map_nil]
  have he : lo + ((b - lo).toNat : Int) = b := by omega
  rw [he]

theorem hebrewMonthsSum_succ (y lo b : Int) (h : lo ≤ b) :
    hebrewMonthsSum y lo (b + 1) = hebrewMonthsSum y lo b + hebrewMonthDays y b := by
  simp only [hebrewMonthsSum, intRangeList_succ lo b h]
  rw [List.map_append, List.sum_append]
  simp

theorem hebrewMonthsSum_empty (y lo : Int) : hebrewMonthsSum y lo lo = 0 := by
  simp only [hebrewMonthsSum, intRangeList]
  rw [show (lo - lo : Int) = 0 from by ring]
  rfl

theorem hebrewMonthsSum_pred (y lo hi : Int) (h : lo ≤ hi - 1) :
    hebrewMonthsSum y lo hi
      = hebrewMonthsSum y lo (hi - 1) + hebrewMonthDays y (hi - 1) := by
  have hs := hebrewMonthsSum_succ y lo (hi - 1) h
  rw [show (hi - 1 + 1 : Int) = hi from by ring] at hs
  exact hs

theorem hMd1 (y : Int) : hebrewMonthDays y 1 = 30 := by norm_num [hebrewMonthDays]
theorem hMd2 (y : Int) : hebrewMonthDays y 2 = 29 := by norm_num [hebrewMonthDays]
theorem hMd3 (y : Int) : hebrewMonthDays y 3 = 30 := by norm_num [hebrewMonthDays]
theorem hMd4 (y : Int) : hebrewMonthDays y 4 = 29 := by norm_num [hebrewMonthDays]
theorem hMd5 (y : Int) : hebrewMonthDays y 5 = 30 := by norm_num [hebrewMonthDays]
theorem hMd6 (y : Int) : hebrewMonthDays y 6 = 29 := by norm_num [hebrewMonthDays]
theorem hMd7 (y : Int) : hebrewMonthDays y 7 = 30 := by norm_num [hebrewMonthDays]
theorem hMd10 (y : Int) : hebrewMonthDays y 10 = 29 := by norm_num [hebrewMonthDays]
theorem hMd11 (y : Int) : hebrewMonthDays y 11 = 30 := by norm_num [hebrewMonthDays]
theorem hMd13 (y : Int) : hebrewMonthDays y 13 = 29 := by norm_num [hebrewMonthDays]

theorem hMd12 (y : Int) :
    hebrewMonthDays y 12 = if hebrewLeap y then 30 else 29 := by
  simp only [hebrewMonthDays]
  norm_num
  cases hebrewLeap y <;> simp

theorem hMd8 (y : Int) :
    hebrewMonthDays y 8 = if hebrewYearDays y % 10 = 5 then 30 else 29 := by
  simp only [hebrewMonthDays]
  norm_num

theorem hMd9 (y : Int) :
    hebrewMonthDays y 9 = if hebrewYearDays y % 10 = 3 then 29 else 30 := by
  simp only [hebrewMonthDays]
  norm_num

theorem hSum_7_13 (y : Int) :
    hebrewMonthsSum y 7 13 = hebrewMonthDays y 7 + hebrewMonthDays y 8 +
      hebrewMonthDays y 9 + hebrewMonthDays y 10 + hebrewMonthDays y 11 +
      hebrewMonthDays y 12 := by
  rw [hebrewMonthsSum_pred y 7 13 (by norm_num),
      hebrewMonthsSum_pred y 7 (13 - 1) (by norm_num),
      hebrewMonthsSum_pred y 7 (13 - 1 - 1) (by norm_num),
      hebrewMonthsSum_pred y 7 (13 - 1 - 1 - 1) (by norm_num),
      hebrewMonthsSum_pred y 7 (13 - 1 - 1 - 1 - 1) (by norm_num),
      hebrewMonthsSum_pred y 7 (13 - 1 - 1 - 1 - 1 - 1) (by norm_num)]
  norm_num [hebrewMonthsSum_empty]
  try ring

theorem hSum_7_14 (y : Int) :
    hebrewMonthsSum y 7 14 = hebrewMonthsSum y 7 13 + hebrewMonthDays y 13 := by
  rw [hebrewMonthsSum_pred y 7 14 (by norm_num)]
  norm_num

theorem hSum_1_7 (y : Int) :
    hebrewMonthsSum y 1 7 = 177 := by
  rw [hebrewMonthsSum_pred y 1 7 (by norm_num),
      hebrewMonthsSum_pred y 1 (7 - 1) (by norm_num),
      hebrewMonthsSum_pred y 1 (7 - 1 - 1) (by norm_num),
      hebrewMonthsSum_pred y 1 (7 - 1 - 1 - 1) (by norm_num),
      hebrewMonthsSum_pred y 1 (7 - 1 - 1 - 1 - 1) (by norm_num),
      hebrewMonthsSum_pred y 1 (7 - 1 - 1 - 1 - 1 - 1) (by norm_num)]
  norm_num [hebrewMonthsSum_empty, hMd1, hMd2, hMd3, hMd4, hMd5, hMd6]

theorem hSum_1_3 (y : Int) :
    hebrewMonthsSum y 1 3 = 59 := by
  rw [hebrewMonthsSum_pred y 1 3 (by norm_num),
      hebrewMonthsSum_pred y 1 (3 - 1) (by norm_num)]
  norm_num [hebrewMonthsSum_empty, hMd1, hMd2]

theorem hSum_7_9 (y : Int) :
    hebrewMonthsSum y 7 9 = hebrewMonthDays y 7 + hebrewMonthDays y 8 := by
  rw [hebrewMonthsSum_pred y 7 9 (by norm_num),
      hebrewMonthsSum_pred y 7 (9 - 1) (by norm_num)]
  norm_num [hebrewMonthsSum_empty]

theorem hSum_7_12 (y : Int) :
    hebrewMonthsSum y 7 12 = hebrewMonthDays y 7 + hebrewMonthDays y 8 +
      hebrewMonthDays y 9 + hebrewMonthDays y 10 + hebrewMonthDays y 11 := by
  rw [hebrewMonthsSum_pred y 7 12 (by norm_num),
      hebrewMonthsSum_pred y 7 (12 - 1) (by norm_num),
      hebrewMonthsSum_pred y 7 (12 - 1 - 1) (by norm_num),
      hebrewMonthsSum_pred y 7 (12 - 1 - 1 - 1) (by norm_num),
      hebrewMonthsSum_pred y 7 (12 - 1 - 1 - 1 - 1) (by norm_num)]
  norm_num [hebrewMonthsSum_empty]
  try ring

/-- The months of a year sum to at least its delay-arithmetic length: the
month tables never leave a tail gap, so `from_jd`'s month loop always finds
its month. -/
theorem hWS_ge_yd (y : Int) (hy : 1 ≤ y) :
    hebrewYearDays y ≤
      hebrewMonthsSum y 7 (hebrewYearMonths y + 1) + hebrewMonthsSum y 1 7 := by
  have hbd := hYd_bounds y hy
  have h8 := hMd8 y
  have h9 := hMd9 y
  cases hl : hebrewLeap y
  · have hm : hebrewYearMonths y = 12 := by simp [hebrewYearMonths, hl]
    have h12 : hebrewMonthDays y 12 = 29 := by rw [hMd12, hl]; simp
    rw [hm, show (12 + 1 : Int) = 13 from by norm_num, hSum_7_13, hSum_1_7,
      hMd7, hMd10, hMd11, h12]
    have := hbd.1 hl
    split_ifs at h8 h9 <;> omega
  · have hm : hebrewYearMonths y = 13 := by simp [hebrewYearMonths, hl]
    have h12 : hebrewMonthDays y 12 = 30 := by rw [hMd12, hl]; simp
    rw [hm, show (13 + 1 : Int) = 14 from by norm_num, hSum_7_14, hSum_7_13,
      hSum_1_7, hMd7, hMd10, hMd11, h12, hMd13]
    have := hbd.2 hl
    split_ifs at h8 h9 <;> omega

/-! ## Structure of `to_jd` and the `from_jd` searches. -/

theorem hebrewToJd_tishri1 (y : Int) : hebrewToJd y 7 1 = hebrewNewYear y := by
  simp only [hebrewToJd, hebrewNewYear]
  rw [if_neg (by norm_num), hebrewMonthsSum_empty]
  ring

theorem hebrewToJd_day (y m d : Int) :
    hebrewToJd y m d = hebrewToJd y m 1 + (d - 1) := by
  simp only [hebrewToJd]
  split_ifs <;> ring

theorem hebrewToJd_lowMonth (y m d : Int) (h : m < 7) :
    hebrewToJd y m d = hebrewNewYear y +
      (hebrewMonthsSum y 7 (hebrewYearMonths y + 1) + hebrewMonthsSum y 1 m + (d - 1)) := by
  simp only [hebrewToJd, hebrewNewYear]
  rw [if_pos h]
  ring

theorem hebrewToJd_highMonth (y m d : Int) (h : ¬ m < 7) :
    hebrewToJd y m d = hebrewNewYear y + (hebrewMonthsSum y 7 m + (d - 1)) := by
  simp only [hebrewToJd, hebrewNewYear]
  rw [if_neg h]
  ring

theorem hebrewToJd_nisan1 (y : Int) :
    hebrewToJd y 1 1 = hebrewNewYear y +
      hebrewMonthsSum y 7 (hebrewYearMonths y + 1) := by
  rw [hebrewToJd_lowMonth y 1 1 (by norm_num), hebrewMonthsSum_empty]
  ring

theorem mem_intRangeList (lo hi a : Int) :
    a ∈ intRangeList lo hi ↔ lo ≤ a ∧ a < hi := by
  simp only [intRangeList, List.mem_map, List.mem_range]
  constructor
  · rintro ⟨k, hk, rfl⟩
    omega
  · intro ⟨h1, h2⟩
    exact ⟨(a - lo).toNat, by omega, by omega⟩

theorem hebrewNewYear_ge (i : Int) (hi : 1 ≤ i) :
    347997 + 29 * ((235 * i - 234) / 19) ≤ hebrewNewYear i := by
  rw [hebrewNewYear, hebrewDelay1_eq i hi]
  have hM0 : 0 ≤ (235 * i - 234) / 19 := Int.ediv_nonneg (by omega) (by norm_num)
  have hP0 : 0 ≤ (12084 + 13753 * ((235 * i - 234) / 19)) / 25920 :=
    Int.ediv_nonneg (by omega) (by norm_num)
  have hp := (hPost_char i).2
  have hd2 := hebrewDelay2_range i
  simp only [hD0]
  omega

theorem hebrewNewYear_gt (i J : Int) (hJ : J ≤ 5373584) (hi : 22999 ≤ i) :
    J < hebrewNewYear i := by
  have h1 := hebrewNewYear_ge i (by omega)
  have hM : 284449 ≤ (235 * i - 234) / 19 := by omega
  omega

theorem hebrewYearSearch_spec (J : Int) (fuel : Nat) (start : Int)
    (hex : ∃ k : Int, start ≤ k ∧ k < start + (fuel : Int) ∧ J < hebrewNewYear k) :
    ∃ i, hebrewYearSearch J fuel start = some i ∧ start ≤ i ∧ J < hebrewNewYear i ∧
      ∀ k, start ≤ k → k < i → hebrewNewYear k ≤ J := by
  induction fuel generalizing start with
  | zero =>
    exfalso
    obtain ⟨k, h1, h2, _⟩ := hex
    simp only [Nat.cast_zero, add_zero] at h2
    omega
  | succ fuel ih =>
    by_cases h : J < hebrewNewYear start
    · refine ⟨start, ?_, le_refl _, h, ?_⟩
      · simp [hebrewYearSearch, h]
      · intro k hk1 hk2
        omega
    · have hstep : hebrewYearSearch J (fuel + 1) start
          = hebrewYearSearch J fuel (start + 1) := by
        simp [hebrewYearSearch, h]
      obtain ⟨k, h1, h2, h3⟩ := hex
      have hk : start + 1 ≤ k := by
        rcases eq_or_lt_of_le h1 with rfl | h'
        · exact absurd h3 h
        · omega
      have h2' : k < start + 1 + (fuel : Int) := by
        push_cast at h2
        omega
      obtain ⟨i, hi1, hi2, hi3, hi4⟩ := ih (start + 1) ⟨k, hk, h2', h3⟩
      refine ⟨i, hstep ▸ hi1, by omega, hi3, ?_⟩
      intro k' hk1 hk2
      rcases eq_or_lt_of_le hk1 with rfl | h'
      · exact not_lt.mp h
      · exact hi4 k' (by omega) hk2

theorem hCount_ge (J : Int) (hJ : 1721423 ≤ J) :
    3000 ≤ Int.tdiv ((J - 347995) * 98496) 35975351 := by
  rw [Int.tdiv_eq_ediv (by omega) (by norm_num)]
  omega

theorem hebrewMonthSearch_found (J year : Int) (hy : 1 ≤ year)
    (hbracket : J < hebrewNewYear (year + 1)) :
    ∃ mo, hebrewMonthSearch J year
      (if J < hebrewToJd year 1 1 then 7 else 1) = some mo := by
  by_cases hf : J < hebrewToJd year 1 1
  · rw [if_pos hf]
    have hwit : ∃ i, i ∈ intRangeList 7 14 ∧
        decide (J ≤ hebrewToJd year i (hebrewMonthDays year i)) = true := by
      cases hl : hebrewLeap year
      · refine ⟨12, (mem_intRangeList 7 14 12).mpr (by norm_num), ?_⟩
        have hm : hebrewYearMonths year = 12 := by simp [hebrewYearMonths, hl]
        have hn := hebrewToJd_nisan1 year
        rw [hm] at hn
        rw [hebrewMonthsSum_succ year 7 12 (by norm_num)] at hn
        have he := hebrewToJd_highMonth year 12 (hebrewMonthDays year 12) (by norm_num)
        simp only [decide_eq_true_eq]
        omega
      · refine ⟨13, (mem_intRangeList 7 14 13).mpr (by norm_num), ?_⟩
        have hm : hebrewYearMonths year = 13 := by simp [hebrewYearMonths, hl]
        have hn := hebrewToJd_nisan1 year
        rw [hm] at hn
        rw [hebrewMonthsSum_succ year 7 13 (by norm_num)] at hn
        have he := hebrewToJd_highMonth year 13 (hebrewMonthDays year 13) (by norm_num)
        simp only [decide_eq_true_eq]
        omega
    have hsome := List.find?_isSome.mpr hwit
    obtain ⟨mo, hmo⟩ := Option.isSome_iff_exists.mp hsome
    exact ⟨mo, hmo⟩
  · rw [if_neg hf]
    have hwit : ∃ i, i ∈ intRangeList 1 14 ∧
        decide (J ≤ hebrewToJd year i (hebrewMonthDays year i)) = true := by
      refine ⟨6, (mem_intRangeList 1 14 6).mpr (by norm_num), ?_⟩
      have hws := hWS_ge_yd year hy
      have he := hebrewToJd_lowMonth year 6 (hebrewMonthDays year 6) (by norm_num)
      have hs17 : hebrewMonthsSum year 1 7
          = hebrewMonthsSum year 1 6 + hebrewMonthDays year 6 := by
        have := hebrewMonthsSum_succ year 1 6 (by norm_num)
        rw [show (6 + 1 : Int) = 7 from by norm_num] at this
        exact this
      have hyd : hebrewYearDays year = hebrewNewYear (year + 1) - hebrewNewYear year := by
        simp [hebrewYearDays]
      simp only [decide_eq_true_eq]
      omega
    have hsome := List.find?_isSome.mpr hwit
    obtain ⟨mo, hmo⟩ := Option.isSome_iff_exists.mp hsome
    exact ⟨mo, hmo⟩

/-- For every day number a valid `datetime` date can produce, `from_jd`
returns a result: the year search lands within fuel and the month loop
never runs past month 13. -/
theorem hebrewFromJd_some (J : Int) (h1 : 1721423 ≤ J) (h2 : J ≤ 5373584) :
    ∃ y m d, hebrewFromJd J = some (y, m, d) ∧ 2999 ≤ y := by
  have hc3000 : 3000 ≤ Int.tdiv ((J - 347995) * 98496) 35975351 := hCount_ge J h1
  have hex : ∃ k : Int, Int.tdiv ((J - 347995) * 98496) 35975351 ≤ k ∧
      k < Int.tdiv ((J - 347995) * 98496) 35975351 + ((20000 : Nat) : Int) ∧
      J < hebrewNewYear k := by
    refine ⟨Int.tdiv ((J - 347995) * 98496) 35975351 + 19999, by omega, by push_cast; omega, ?_⟩
    exact hebrewNewYear_gt _ J h2 (by omega)
  obtain ⟨i, hsome, hge, hlt, hinv⟩ :=
    hebrewYearSearch_spec J 20000 (Int.tdiv ((J - 347995) * 98496) 35975351) hex
  have hbracket : J < hebrewNewYear (i - 1 + 1) := by
    rw [show (i - 1 + 1 : Int) = i from by ring]
    exact hlt
  obtain ⟨mo, hmo⟩ := hebrewMonthSearch_found J (i - 1) (by omega) hbracket
  refine ⟨i - 1, mo, J - hebrewToJd (i - 1) mo 1 + 1, ?_, by omega⟩
  unfold hebrewFromJd
  rw [hsome]
  simp only []
  rw [hmo]

/-- Whatever triple `from_jd` returns, `to_jd` maps it back to the input
day number: the day component is computed as exactly the affine offset
`to_jd` adds. -/
theorem hebrewToJd_of_fromJd (J y m d : Int) (h : hebrewFromJd J = some (y, m, d)) :
    hebrewToJd y m d = J := by
  unfold hebrewFromJd at h
  cases hs : hebrewYearSearch J 20000 (Int.tdiv ((J - 347995) * 98496) 35975351) with
  | none =>
    rw [hs] at h
    exact absurd h (by simp)
  | some i =>
    rw [hs] at h
    dsimp only at h
    cases hm : hebrewMonthSearch J (i - 1) (if J < hebrewToJd (i - 1) 1 1 then 7 else 1) with
    | none =>
      rw [hm] at h
      exact absurd h (by simp)
    | some mo =>
      rw [hm] at h
      have h' : (i - 1, mo, J - hebrewToJd (i - 1) mo 1 + 1) = (y, m, d) := by
        simpa using h
      rw [Prod.mk.injEq, Prod.mk.injEq] at h'
      obtain ⟨h1, h2, h3⟩ := h'
      subst h1 h2 h3
      rw [hebrewToJd_day]
      ring

theorem gregorianToJd_bounds (y m d : Int) (h : validCivil y m d) :
    1721423 ≤ gregorianToJd y m d ∧ gregorianToJd y m d ≤ 5373584 := by
  obtain ⟨h1, h2, h3, h4, h5, h6⟩ := h
  have hmlen : gregorianMonthLen y m ≤ 31 := by
    simp only [gregorianMonthLen]
    split_ifs <;> omega
  simp only [gregorianToJd]
  have hK0 : 0 ≤ (367 * m - 362) / 12 := Int.ediv_nonneg (by omega) (by norm_num)
  have hK1 : (367 * m - 362) / 12 ≤ 336 := by omega
  split_ifs <;> omega

/-- C7: converting a valid civil date to the liturgical calendar succeeds,
and converting the result back yields the original date:
`liturgicalToCivil (civilToLiturgical (y, m, d)) = (y, m, d)`. -/
theorem calendar_roundtrip_c7 (y m d : Int) (h : validCivil y m d) :
    ∃ hy hm hd, hebrewFromGregorian y m d = some (hy, hm, hd) ∧
      hebrewToGregorian hy hm hd = (y, m, d) := by
  obtain ⟨hJ1, hJ2⟩ := gregorianToJd_bounds y m d h
  obtain ⟨hy, hm, hd, hsome, _⟩ := hebrewFromJd_some (gregorianToJd y m d) hJ1 hJ2
  refine ⟨hy, hm, hd, hsome, ?_⟩
  unfold hebrewToGregorian
  rw [hebrewToJd_of_fromJd _ _ _ _ hsome]
  exact gregorianFromJd_gregorianToJd y m d h

/-- Witness for C7 at the concrete civil date 2024-03-01. -/
theorem calendar_roundtrip_c7_witness :
    validCivil 2024 3 1 ∧
    (∃ hy hm hd, hebrewFromGregorian 2024 3 1 = some (hy, hm, hd) ∧
      hebrewToGregorian hy hm hd = (2024, 3, 1)) :=
  ⟨by decide, calendar_roundtrip_c7 2024 3 1 (by decide)⟩

/-! ## Festival Matcher (hebrew_festival_matches, main.py lines 122-144). -/

structure Festival where
  month : Int
  day : Int
  name : String
  emphasis : String
deriving DecidableEq, Repr, Inhabited

/-- The fixed festival catalog (`FESTIVALS`, main.py lines 29-38). -/
def FESTIVALS : List Festival :=
  [ ⟨1, 15, "Passover (Pesach)",
      "Celebrates redemption from Egypt and anticipates ultimate deliverance."⟩,
    ⟨1, 21, "Feast of Unleavened Bread",
      "Calls to remove leaven—symbolizing holiness and readiness."⟩,
    ⟨3, 6, "Shavuot (Pentecost)",
      "Remembers Torah giving and the Spirit\x27s empowering."⟩,
    ⟨7, 1, "Rosh Hashanah",
      "Invites reflection, repentance, and attentiveness to God\x27s voice."⟩,
    ⟨7, 10, "Yom Kippur", "Centers on atonement and God\x27s mercy."⟩,
    ⟨7, 15, "Sukkot", "Highlights God\x27s provision in wilderness journeys."⟩,
    ⟨9, 25, "Hanukkah", "Celebrates dedication and faithful witness."⟩,
    ⟨12, 14, "Purim", "Recounts God\x27s hidden deliverance in Esther\x27s story."⟩ ]

/-- A festival correlated to a civil occurrence: the source stores the
festival name, its emphasis, the civil date (serialized with
`.isoformat()`), and the day distance. -/
structure FestivalMatch where
  festival : String
  emphasis : String
  festival_date : Int × Int × Int
  days_apart : Int
deriving DecidableEq, Repr, Inhabited

/-- The body of the matcher's inner loop for one (swept year, festival)
pair: convert to a civil date, let `datetime(...)` validate it (a
`ValueError` — `none` — skips the pair), and keep it when within 21 days
of the reference date. -/
def festivalStep (refJ year : Int) (f : Festival) : Option FestivalMatch :=
  let g := gregorianFromJd (hebrewToJd year f.month f.day)
  if decide (validCivil g.1 g.2.1 g.2.2) then
    if |refJ - gregorianToJd g.1 g.2.1 g.2.2| ≤ 21 then
      some { festival := f.name, emphasis := f.emphasis, festival_date := g,
             days_apart := |refJ - gregorianToJd g.1 g.2.1 g.2.2| }
    else none
  else none

/-- The `for offset in (-1, 0, 1)` sweep, in insertion order. -/
def festivalSweep (refJ hy : Int) (catalog : List Festival) : List FestivalMatch :=
  catalog.filterMap (festivalStep refJ (hy + -1)) ++
    catalog.filterMap (festivalStep refJ (hy + 0)) ++
    catalog.filterMap (festivalStep refJ (hy + 1))

/-- `hebrew_festival_matches`, parametrized by the festival catalog; `none`
models the uncaught failure of `hebrew.from_gregorian` on the reference
date (proved unreachable for valid dates).  The reference date is a civil
date (y, m, d), per the spec a date without time component. -/
def hebrew_festival_matchesCat (catalog : List Festival) (y m d : Int) :
    Option (List FestivalMatch) :=
  match hebrewFromJd (gregorianToJd y m d) with
  | none => none
  | some (hy, _, _) =>
    some (sortByKey (fun x => x.days_apart)
      (festivalSweep (gregorianToJd y m d) hy catalog))

/-- The matcher as the program runs it, over the fixed catalog. -/
def hebrew_festival_matches (y m d : Int) : Option (List FestivalMatch) :=
  hebrew_festival_matchesCat FESTIVALS y m d

theorem festivalStep_some (refJ year : Int) (f : Festival) (x : FestivalMatch)
    (h : festivalStep refJ year f = some x) :
    x.festival = f.name ∧
    x.days_apart = |refJ - hebrewToJd year f.month f.day| ∧
    x.days_apart ≤ 21 := by
  have hg := gregorianToJd_fromJd (hebrewToJd year f.month f.day)
  simp only [festivalStep] at h
  split_ifs at h with h1 h2
  have hx := Option.some.inj h
  subst hx
  refine ⟨rfl, ?_, ?_⟩
  · show |refJ - gregorianToJd (gregorianFromJd (hebrewToJd year f.month f.day)).1
      (gregorianFromJd (hebrewToJd year f.month f.day)).2.1
      (gregorianFromJd (hebrewToJd year f.month f.day)).2.2| = _
    rw [hg]
  · show |refJ - gregorianToJd (gregorianFromJd (hebrewToJd year f.month f.day)).1
      (gregorianFromJd (hebrewToJd year f.month f.day)).2.1
      (gregorianFromJd (hebrewToJd year f.month f.day)).2.2| ≤ 21
    exact h2

theorem hYd_ge_351 (y : Int) (hy : 1 ≤ y) : 351 ≤ hebrewYearDays y := by
  have h := hYd_bounds y hy
  cases hl : hebrewLeap y
  · exact (h.1 hl).1
  · have := (h.2 hl).1
    omega

theorem hebrewNewYear_succ (y : Int) :
    hebrewNewYear (y + 1) = hebrewNewYear y + hebrewYearDays y := by
  simp only [hebrewYearDays]
  ring

theorem hebrewNewYear_mono (a b : Int) (ha : 1 ≤ a) (hab : a ≤ b) :
    hebrewNewYear a ≤ hebrewNewYear b := by
  have key : ∀ k : Nat, hebrewNewYear a ≤ hebrewNewYear (a + k) := by
    intro k
    induction k with
    | zero => simp
    | succ n ih =>
      have h := hYd_ge_351 (a + n) (by omega)
      have hs := hebrewNewYear_succ (a + n)
      have hc : a + ((n + 1 : Nat) : Int) = (a + n) + 1 := by push_cast; ring
      rw [hc]
      omega
  obtain ⟨k, hk⟩ : ∃ k : Nat, b = a + k := ⟨(b - a).toNat, by omega⟩
  rw [hk]
  exact key k

/-- Every catalog festival falls at least 43 days before the next
liturgical new year (numerically the slack is far larger), and never
before its own year's new year. -/
theorem festival_off_bounds (y : Int) (hy : 1 ≤ y) (f : Festival)
    (hf : f ∈ FESTIVALS) :
    0 ≤ hebrewToJd y f.month f.day - hebrewNewYear y ∧
    hebrewToJd y f.month f.day - hebrewNewYear y ≤ hebrewYearDays y - 43 := by
  have hyd := hYd_bounds y hy
  have r7 := hebrewMonthDays_range y 7
  have r8 := hebrewMonthDays_range y 8
  have r9 := hebrewMonthDays_range y 9
  have r10 := hebrewMonthDays_range y 10
  have r11 := hebrewMonthDays_range y 11
  have r12 := hebrewMonthDays_range y 12
  have h13 := hSum_7_13 y
  have h14 := hSum_7_14 y
  have h79 := hSum_7_9 y
  have h712 := hSum_7_12 y
  have h13v := hMd13 y
  have h1_3 := hSum_1_3 y
  have hS1 : 0 ≤ hebrewMonthsSum y 7 (hebrewYearMonths y + 1) ∧
      hebrewMonthsSum y 7 (hebrewYearMonths y + 1) ≤ hebrewYearDays y - 170 := by
    cases hl : hebrewLeap y
    · have hm : hebrewYearMonths y = 12 := by simp [hebrewYearMonths, hl]
      have hb := hyd.1 hl
      rw [hm, show (12 + 1 : Int) = 13 from by norm_num, h13]
      omega
    · have hm : hebrewYearMonths y = 13 := by simp [hebrewYearMonths, hl]
      have hb := hyd.2 hl
      rw [hm, show (13 + 1 : Int) = 14 from by norm_num, h14, h13]
      omega
  have hyd351 := hYd_ge_351 y hy
  have hempty := hebrewMonthsSum_empty y 1
  have hempty7 := hebrewMonthsSum_empty y 7
  fin_cases hf
  · rw [hebrewToJd_lowMonth y 1 15 (by norm_num)]
    simp only [hempty]
    omega
  · rw [hebrewToJd_lowMonth y 1 21 (by norm_num)]
    simp only [hempty]
    omega
  · rw [hebrewToJd_lowMonth y 3 6 (by norm_num)]
    simp only [h1_3]
    omega
  · rw [hebrewToJd_highMonth y 7 1 (by norm_num)]
    simp only [hempty7]
    omega
  · rw [hebrewToJd_highMonth y 7 10 (by norm_num)]
    simp only [hempty7]
    omega
  · rw [hebrewToJd_highMonth y 7 15 (by norm_num)]
    simp only [hempty7]
    omega
  · rw [hebrewToJd_highMonth y 9 25 (by norm_num)]
    simp only [h79]
    omega
  · rw [hebrewToJd_highMonth y 12 14 (by norm_num)]
    simp only [h712]
    omega

/-- Matches kept from two different swept years cannot both lie within the
21-day window: consecutive liturgical years put catalog festivals at least
43 civil days apart. -/
theorem festival_cross_gap (refJ y1 y2 : Int) (h1 : 1 ≤ y1) (h12 : y1 < y2)
    (f1 f2 : Festival) (hf1 : f1 ∈ FESTIVALS) (hf2 : f2 ∈ FESTIVALS)
    (a b : FestivalMatch) (ha : festivalStep refJ y1 f1 = some a)
    (hb : festivalStep refJ y2 f2 = some b) : False := by
  obtain ⟨_, hda, hda21⟩ := festivalStep_some refJ y1 f1 a ha
  obtain ⟨_, hdb, hdb21⟩ := festivalStep_some refJ y2 f2 b hb
  obtain ⟨_, ho2⟩ := festival_off_bounds y1 h1 f1 hf1
  obtain ⟨ho1', _⟩ := festival_off_bounds y2 (by omega) f2 hf2
  have hmono : hebrewNewYear (y1 + 1) ≤ hebrewNewYear y2 :=
    hebrewNewYear_mono (y1 + 1) y2 (by omega) (by omega)
  have hsucc := hebrewNewYear_succ y1
  rw [hda] at hda21
  rw [hdb] at hdb21
  have e1 := abs_le.mp hda21
  have e2 := abs_le.mp hdb21
  omega

/-- Relation the sorted output must satisfy on adjacent-in-order pairs:
strictly closer, or equally close with the earlier catalog position first. -/
def matchOrder (a b : FestivalMatch) : Prop :=
  a.days_apart < b.days_apart ∨
    (a.days_apart = b.days_apart ∧
      FESTIVALS.findIdx (fun f => f.name == a.festival) <
        FESTIVALS.findIdx (fun f => f.name == b.festival))

theorem sweep_pairwise (refJ hy : Int) (hhy : 2 ≤ hy) :
    (festivalSweep refJ hy FESTIVALS).Pairwise
      (fun a b => a.days_apart = b.days_apart →
        FESTIVALS.findIdx (fun f => f.name == a.festival) <
          FESTIVALS.findIdx (fun f => f.name == b.festival)) := by
  have hcat : FESTIVALS.Pairwise (fun f g =>
      FESTIVALS.findIdx (fun x => x.name == f.name) <
        FESTIVALS.findIdx (fun x => x.name == g.name)) := by decide
  have hblock : ∀ yr : Int,
      (FESTIVALS.filterMap (festivalStep refJ yr)).Pairwise
        (fun a b => a.days_apart = b.days_apart →
          FESTIVALS.findIdx (fun f => f.name == a.festival) <
            FESTIVALS.findIdx (fun f => f.name == b.festival)) := by
    intro yr
    refine List.Pairwise.filterMap _ ?_ hcat
    intro f1 f2 hidx x hx z hz hdays
    rw [(festivalStep_some refJ yr f1 x hx).1, (festivalStep_some refJ yr f2 z hz).1]
    exact hidx
  have hcross : ∀ y1 y2 : Int, 1 ≤ y1 → y1 < y2 →
      ∀ x ∈ FESTIVALS.filterMap (festivalStep refJ y1),
      ∀ z ∈ FESTIVALS.filterMap (festivalStep refJ y2),
      (x.days_apart = z.days_apart →
        FESTIVALS.findIdx (fun f => f.name == x.festival) <
          FESTIVALS.findIdx (fun f => f.name == z.festival)) := by
    intro y1 y2 hy1 hlt x hx z hz hdays
    exfalso
    rcases List.mem_filterMap.mp hx with ⟨f1, hf1, hs1⟩
    rcases List.mem_filterMap.mp hz with ⟨f2, hf2, hs2⟩
    exact festival_cross_gap refJ y1 y2 hy1 hlt f1 f2 hf1 hf2 x z hs1 hs2
  unfold festivalSweep
  refine List.pairwise_append.mpr ⟨List.pairwise_append.mpr ⟨hblock _, hblock _, ?_⟩,
    hblock _, ?_⟩
  · intro x hx z hz
    exact hcross (hy + -1) (hy + 0) (by omega) (by omega) x hx z hz
  · intro x hx z hz
    rcases List.mem_append.mp hx with hx' | hx'
    · exact hcross (hy + -1) (hy + 1) (by omega) (by omega) x hx' z hz
    · exact hcross (hy + 0) (hy + 1) (by omega) (by omega) x hx' z hz

/-- C1: for every valid civil reference date the Festival Matcher returns a
list in which every match lies within the inclusive 21-day window, and the
list is sorted ascending by day distance with ties broken by the position of
the festival in the catalog (stable sort). -/
theorem hebrew_festival_matches_c1 (y m d : Int) (h : validCivil y m d) :
    ∃ ms, hebrew_festival_matches y m d = some ms ∧
      (∀ x ∈ ms, x.days_apart ≤ 21) ∧
      ms.Pairwise matchOrder := by
  obtain ⟨hJ1, hJ2⟩ := gregorianToJd_bounds y m d h
  obtain ⟨hy, hm2, hd2, hsome, hy2999⟩ :=
    hebrewFromJd_some (gregorianToJd y m d) hJ1 hJ2
  refine ⟨sortByKey (fun x => x.days_apart)
    (festivalSweep (gregorianToJd y m d) hy FESTIVALS), ?_, ?_, ?_⟩
  · unfold hebrew_festival_matches hebrew_festival_matchesCat
    rw [hsome]
  · intro x hx
    have hx' := (mem_sortByKey (fun x : FestivalMatch => x.days_apart) _ x).mp hx
    unfold festivalSweep at hx'
    rcases List.mem_append.mp hx' with hx2 | hx2
    · rcases List.mem_append.mp hx2 with hx3 | hx3
      · rcases List.mem_filterMap.mp hx3 with ⟨f, hf, hs⟩
        exact (festivalStep_some _ _ f x hs).2.2
      · rcases List.mem_filterMap.mp hx3 with ⟨f, hf, hs⟩
        exact (festivalStep_some _ _ f x hs).2.2
    · rcases List.mem_filterMap.mp hx2 with ⟨f, hf, hs⟩
      exact (festivalStep_some _ _ f x hs).2.2
  · exact sortByKey_pairwise (fun x : FestivalMatch => x.days_apart) _ _
      (sweep_pairwise (gregorianToJd y m d) hy (by omega))

theorem hebrew_festival_matches_c1_witness :
    validCivil 2024 4 10 ∧
    ∃ ms, hebrew_festival_matches 2024 4 10 = some ms ∧
      (∀ x ∈ ms, x.days_apart ≤ 21) ∧
      ms.Pairwise matchOrder :=
  ⟨by decide, hebrew_festival_matches_c1 2024 4 10 (by decide)⟩

/-- C8: for every valid civil reference date the matcher pipeline is total,
and whenever a catalog festival's liturgical month/day fails to convert for
one swept year (the per-pair conversion returns no match), that single
(year, festival) pair is skipped and the remaining pairs of the sweep are
processed unchanged: no failure escapes the matcher. -/
theorem hebrew_festival_matches_c8 (y m d : Int) (h : validCivil y m d)
    (l1 l2 : List Festival) (f : Festival) :
    ∃ hy hm hd, hebrewFromJd (gregorianToJd y m d) = some (hy, hm, hd) ∧
      (∀ off : Int,
        festivalStep (gregorianToJd y m d) (hy + off) f = none →
        (l1 ++ f :: l2).filterMap (festivalStep (gregorianToJd y m d) (hy + off)) =
          (l1 ++ l2).filterMap (festivalStep (gregorianToJd y m d) (hy + off))) ∧
      ∃ ms, hebrew_festival_matchesCat (l1 ++ f :: l2) y m d = some ms := by
  obtain ⟨hJ1, hJ2⟩ := gregorianToJd_bounds y m d h
  obtain ⟨hy, hm2, hd2, hsome, hy2999⟩ :=
    hebrewFromJd_some (gregorianToJd y m d) hJ1 hJ2
  refine ⟨hy, hm2, hd2, hsome, ?_, ?_⟩
  · intro off hnone
    rw [List.filterMap_append, List.filterMap_append, List.filterMap_cons, hnone]
  · unfold hebrew_festival_matchesCat
    rw [hsome]
    exact ⟨_, rfl⟩

theorem hebrew_festival_matches_c8_witness :
    validCivil 9999 12 31 ∧
    festivalStep (gregorianToJd 9999 12 31) (13760 + 1)
      ⟨1, 15, "Passover (Pesach)",
        "Celebrates redemption from Egypt and anticipates ultimate deliverance."⟩ = none ∧
    (∃ hy hm hd, hebrewFromJd (gregorianToJd 9999 12 31) = some (hy, hm, hd) ∧
      (∀ off : Int,
        festivalStep (gregorianToJd 9999 12 31) (hy + off)
          (⟨1, 15, "Passover (Pesach)",
            "Celebrates redemption from Egypt and anticipates ultimate deliverance."⟩ : Festival) = none →
        (([] : List Festival) ++
            (⟨1, 15, "Passover (Pesach)",
              "Celebrates redemption from Egypt and anticipates ultimate deliverance."⟩ : Festival) ::
            ([] : List Festival)).filterMap
            (festivalStep (gregorianToJd 9999 12 31) (hy + off)) =
          (([] : List Festival) ++ ([] : List Festival)).filterMap
            (festivalStep (gregorianToJd 9999 12 31) (hy + off))) ∧
      ∃ ms, hebrew_festival_matchesCat
        (([] : List Festival) ++
          (⟨1, 15, "Passover (Pesach)",
            "Celebrates redemption from Egypt and anticipates ultimate deliverance."⟩ : Festival) ::
          ([] : List Festival)) 9999 12 31 = some ms) :=
  ⟨by decide, by decide,
    hebrew_festival_matches_c8 9999 12 31 (by decide) [] []
      ⟨1, 15, "Passover (Pesach)",
        "Celebrates redemption from Egypt and anticipates ultimate deliverance."⟩⟩
